import Mathlib

/-!
Verification development for the rune query engine (crates/rune/src/query/mod.rs)
and the field-access emitter (crates/rune/src/compiling/assemble/expr_field_access.rs).

The Rust code is shallowly embedded: interned items are modelled as lists of
components (interning is injective, so keying maps by the item itself is
equivalent to keying by `ItemId`), the `LinkedHashMap` of indexed entries is an
ordered association list, and the mutable `QueryInner` is threaded as explicit
state.  Fallible operations return `Except` paired with the post-state, since
in Rust mutations performed before an early `?` return persist.
-/

set_option linter.constructorNameAsVariable false

namespace Rune

/-- A path component.  Source components are identifiers, `crate`, `super` or
numeric indices; interning them densely is injective, so a bare `Nat` suffices. -/
abbrev Component := Nat

/-- An item: an ordered sequence of path components (`ItemBuf` / interned `ItemId`). -/
abbrev Item := List Component

/-- Interned module identifier (`ModId`). -/
abbrev ModId := Nat

/-- Source identifier. -/
abbrev SourceId := Nat

/-- A span into a source, abstracted to an opaque tag. -/
abbrev Span := Nat

/-- A `Location`: source id plus span. -/
structure Location where
  sourceId : SourceId
  span : Span
deriving DecidableEq, Repr

/-- One redirection step along a chain of `use` declarations (`ImportStep`). -/
structure ImportStepM where
  location : Location
  item : Item
deriving DecidableEq, Repr

/-- Visibility of an item (`Visibility`).  Its `is_visible` relation lives
outside `src/`; the claims only depend on *when* visibility is checked, so the
relation itself is abstracted into an `AccessPolicy` parameter below. -/
inductive Visibility where
  | inherited
  | publicV
  | crateV
  | superV
  | selfValue
  | inPath (item : Item)
deriving DecidableEq, Repr

/-- Metadata associated with every AST node introducing a name (`ItemMeta`). -/
structure ItemMeta where
  id : Nat
  location : Location
  item : Item
  module : ModId
  visibility : Visibility
deriving DecidableEq, Repr

/-- An import declaration record (`ImportEntry`). -/
structure ImportEntry where
  location : Location
  target : Item
  module : ModId
deriving DecidableEq, Repr

/-- Modelled from the spec: the intermediate representation of a constant
expression (`ir::Ir`, not under `src/`).  The constant interpreter is driven by
a budget decremented on every reduction, so an ir is characterised by the
number of reductions its evaluation performs and the value it produces. -/
structure Ir where
  steps : Nat
  value : Nat
deriving DecidableEq, Repr

/-- The body shape of a struct or variant declaration, after literal
resolution (`ast::ItemStructBody` / `ast::ItemVariantBody`). -/
inductive Body where
  | unitBody
  | tupleBody (args : Nat)
  | structBody (fields : List String)
deriving DecidableEq, Repr

/-- The tagged payload of an indexed entry (`Indexed`).  Opaque parser ASTs are
reduced to the data `build_indexed_entry` extracts from them. -/
inductive Indexed where
  | enumEntry
  | structEntry (body : Body)
  | variantEntry (enumId : Nat) (body : Body) (index : Nat)
  | functionEntry (isTest : Bool) (isBench : Bool)
  | instanceFunctionEntry
  | closureEntry (captures : Nat) (doMove : Bool)
  | asyncBlockEntry (captures : Nat) (doMove : Bool)
  | constEntry (module : ModId) (ir : Ir)
  | constFnEntry (location : Location)
  | importEntry (entry : ImportEntry) (wildcard : Bool)
  | moduleEntry
deriving DecidableEq, Repr

/-- An indexed entry awaiting build (`IndexedEntry`). -/
structure IndexedEntry where
  itemMeta : ItemMeta
  indexed : Indexed
deriving DecidableEq, Repr

/-- The item that best describes an indexed entry (`IndexedEntry::item`). -/
def IndexedEntry.item (e : IndexedEntry) : Item :=
  match e.indexed with
  | .importEntry entry _ => entry.target
  | _ => e.itemMeta.item

/-- Variant shape stored in meta (`PrivVariantMeta`). -/
inductive PrivVariantMeta where
  | unit
  | tuple (args : Nat) (hash : Nat)
  | structV (fields : List String)
deriving DecidableEq, Repr

/-- Canonical metadata kind (`PrivMetaKind`). -/
inductive PrivMetaKind where
  | unknown (typeHash : Nat)
  | structKind (typeHash : Nat) (variant : PrivVariantMeta)
  | variantKind (typeHash : Nat) (enumItem : Item) (enumHash : Nat) (index : Nat)
      (variant : PrivVariantMeta)
  | enumKind (typeHash : Nat)
  | functionKind (typeHash : Nat) (isTest : Bool) (isBench : Bool)
  | closureKind (typeHash : Nat) (captures : Nat) (doMove : Bool)
  | asyncBlockKind (typeHash : Nat) (captures : Nat) (doMove : Bool)
  | constKind (value : Nat)
  | constFnKind (id : Nat)
  | importKind (entry : ImportEntry)
  | moduleKind
deriving DecidableEq, Repr

/-- Canonical per-item metadata (`PrivMeta`). -/
structure PrivMeta where
  itemMeta : ItemMeta
  kind : PrivMetaKind
  source : Option Location
deriving DecidableEq, Repr

/-- Whether a queried value is used (`Used`). -/
inductive Used where
  | unused
  | used
deriving DecidableEq, Repr

/-- `Used::is_unused`. -/
def Used.isUnused : Used → Bool
  | .unused => true
  | .used => false

/-- An entry in the build queue (`Build`). -/
inductive Build where
  | function
  | instanceFunction
  | closure
  | asyncBlock
  | unused
  | importB (entry : ImportEntry) (wildcard : Bool)
  | reExport
  | query
deriving DecidableEq, Repr

/-- An entry in the build queue (`BuildEntry`). -/
structure BuildEntry where
  itemMeta : ItemMeta
  used : Used
  build : Build
deriving DecidableEq, Repr

/-- Query errors (`QueryErrorKind`), restricted to the ones the modelled
operations can raise.  `outOfFuel` is a model artifact: the Rust recursion has
no fuel, and every theorem below supplies enough fuel for it never to fire. -/
inductive QErr where
  | metaConflict (current : PrivMeta) (existing : PrivMeta)
  | ambiguousItem (item : Item) (locations : List (Location × Item))
  | importCycle (path : List ImportStepM)
  | importRecursionLimit (count : Nat) (path : List ImportStepM)
  | notVisible (chain : List Location) (location : Location) (item : Item)
  | missingId
  | budgetExceeded
  | outOfFuel
deriving DecidableEq, Repr

/-- Association-list lookup (models `HashMap::get` / `LinkedHashMap::get`). -/
def alookup {α : Type} : List (Item × α) → Item → Option α
  | [], _ => none
  | (k, v) :: rest, key => if k = key then some v else alookup rest key

/-- Association-list key removal (models `remove`: keys are unique by
construction, removal preserves the order of the remaining bindings). -/
def alistErase {α : Type} (l : List (Item × α)) (k : Item) : List (Item × α) :=
  l.filter (fun p => p.1 ≠ k)

/-- Append a value to the list bound at a key, creating the binding at the end
if absent (models `indexed.entry(item).or_default().push(entry)`). -/
def alistAppendAt (l : List (Item × List IndexedEntry)) (k : Item) (v : IndexedEntry) :
    List (Item × List IndexedEntry) :=
  match l with
  | [] => [(k, [v])]
  | (k', vs) :: rest =>
    if k' = k then (k', vs ++ [v]) :: rest else (k', vs) :: alistAppendAt rest k v

/-- The mutable state of the query engine (`QueryInner`), with instrumentation:
`registered` records `visitor.register_meta` calls, `unitMetas` records
`unit.insert_meta` calls, and `accessChecks` records each invocation of
`check_access_to` (by the checked item). -/
structure QueryState where
  meta : List (Item × PrivMeta)
  queue : List BuildEntry
  indexed : List (Item × List IndexedEntry)
  items : List (Nat × ItemMeta)
  names : List Item
  registered : List PrivMeta
  unitMetas : List PrivMeta
  accessChecks : List Item
  constFns : List (Nat × ItemMeta)
  genNext : Nat
deriving DecidableEq, Repr

/-- Item-keyed lookup in the id-keyed `items` map (`QueryInner::items`). -/
def ilookup {α : Type} : List (Nat × α) → Nat → Option α
  | [], _ => none
  | (k, v) :: rest, key => if k = key then some v else ilookup rest key

/-- A stand-in for `Pool::item_type_hash`: any fixed function of the item. -/
def itemTypeHash (i : Item) : Nat :=
  i.foldl (fun a c => a * 31 + c + 1) 7

/-- `Query::insert_name`. -/
def insertName (s : QueryState) (item : Item) : QueryState :=
  { s with names := if item ∈ s.names then s.names else s.names ++ [item] }

/-- `Query::index`: registers the name and appends the entry to the per-item
ordered list; multiple entries for the same item are allowed. -/
def indexEntry (s : QueryState) (entry : IndexedEntry) : QueryState :=
  let s := insertName s entry.itemMeta.item
  { s with indexed := alistAppendAt s.indexed entry.itemMeta.item entry }

/-- `Query::index_and_build`: queue a `Build::Query` entry, then index. -/
def indexAndBuild (s : QueryState) (entry : IndexedEntry) : QueryState :=
  let s := { s with
    queue := s.queue ++ [⟨entry.itemMeta, Used.used, Build.query⟩] }
  indexEntry s entry

/-- `Query::insert_meta`: registers the meta with the visitor, then inserts
into the meta cache if vacant, else fails with `MetaConflict` carrying the
incoming and existing meta. -/
def insertMeta (s : QueryState) (m : PrivMeta) : Except QErr Unit × QueryState :=
  let s := { s with registered := s.registered ++ [m] }
  match alookup s.meta m.itemMeta.item with
  | some existing => (.error (.metaConflict m existing), s)
  | none => (.ok (), { s with meta := s.meta ++ [(m.itemMeta.item, m)] })

/-- The `(location, item)` pair pushed for a conflicting entry
(`locations.push((oth.item_meta.location, oth.item().to_owned()))`). -/
def entryLocPair (e : IndexedEntry) : Location × Item :=
  (e.itemMeta.location, e.item)

/-- The wildcard-resolution loop of `Query::remove_indexed` over the entries
after the first: a non-wildcard import survives against wildcard imports; any
other combination of two entries is ambiguous, and the locations of the
trailing entries are appended before failing.  A surviving wildcard entry
after the loop is likewise ambiguous. -/
def resolveIndexed (cur : IndexedEntry) (locations : List (Location × Item)) :
    List IndexedEntry → Except QErr (Option IndexedEntry)
  | [] =>
    match cur.indexed with
    | .importEntry _ true => .error (.ambiguousItem cur.itemMeta.item locations)
    | _ => .ok (some cur)
  | oth :: rest =>
    let locations := locations ++ [entryLocPair oth]
    match cur.indexed, oth.indexed with
    | .importEntry _ true, .importEntry _ _ => resolveIndexed oth locations rest
    | .importEntry _ false, .importEntry _ true => resolveIndexed cur locations rest
    | _, _ =>
      .error (.ambiguousItem cur.itemMeta.item (locations ++ rest.map entryLocPair))

/-- `Query::remove_indexed`: removes the whole entry list for the item and
resolves it to at most one entry via `resolveIndexed`. -/
def removeIndexed (s : QueryState) (item : Item) :
    Except QErr (Option IndexedEntry) × QueryState :=
  match alookup s.indexed item with
  | none => (.ok none, s)
  | some entries =>
    let s := { s with indexed := alistErase s.indexed item }
    match entries with
    | [] => (.ok none, s)
    | [single] => (.ok (some single), s)
    | first :: rest => (resolveIndexed first [entryLocPair first] rest, s)

/-- `unit_body_meta`: metadata for a unit body. -/
def unitBodyMeta (item : Item) (enumInfo : Option (Item × Nat × Nat)) : PrivMetaKind :=
  let typeHash := itemTypeHash item
  match enumInfo with
  | some (enumItem, enumHash, index) =>
    .variantKind typeHash enumItem enumHash index .unit
  | none => .structKind typeHash .unit

/-- `tuple_body_meta`: metadata for a tuple body. -/
def tupleBodyMeta (item : Item) (enumInfo : Option (Item × Nat × Nat)) (args : Nat) :
    PrivMetaKind :=
  let typeHash := itemTypeHash item
  let tuple := PrivVariantMeta.tuple args (itemTypeHash item)
  match enumInfo with
  | some (enumItem, enumHash, index) =>
    .variantKind typeHash enumItem enumHash index tuple
  | none => .structKind typeHash tuple

/-- `struct_body_meta`: metadata for a struct body (fields already resolved). -/
def structBodyMeta (item : Item) (enumInfo : Option (Item × Nat × Nat))
    (fields : List String) : PrivMetaKind :=
  let typeHash := itemTypeHash item
  let st := PrivVariantMeta.structV fields
  match enumInfo with
  | some (enumItem, enumHash, index) =>
    .variantKind typeHash enumItem enumHash index st
  | none => .structKind typeHash st

/-- `variant_into_item_decl`. -/
def variantIntoItemDecl (item : Item) (body : Body)
    (enumInfo : Option (Item × Nat × Nat)) : PrivMetaKind :=
  match body with
  | .unitBody => unitBodyMeta item enumInfo
  | .tupleBody args => tupleBodyMeta item enumInfo args
  | .structBody fields => structBodyMeta item enumInfo fields

/-- `struct_into_item_decl`. -/
def structIntoItemDecl (item : Item) (body : Body)
    (enumInfo : Option (Item × Nat × Nat)) : PrivMetaKind :=
  match body with
  | .unitBody => unitBodyMeta item enumInfo
  | .tupleBody args => tupleBodyMeta item enumInfo args
  | .structBody fields => structBodyMeta item enumInfo fields

/-- Modelled from the spec: `IrBudget::take` (crate::compile::ir, not under
`src/`) hands out one reduction, failing when the budget is exhausted. -/
def irBudgetTake : Nat → Option Nat
  | 0 => none
  | b + 1 => some b

/-- Modelled from the spec: the constant interpreter performs one budget
decrement per reduction; exhaustion is a hard error.  Returns the remaining
budget. -/
def evalSteps : Nat → Nat → Option Nat
  | 0, b => some b
  | n + 1, b =>
    match irBudgetTake b with
    | none => none
    | some b' => evalSteps n b'

/-- Modelled from the spec: `IrInterpreter::eval_const` (not under `src/`),
a recursive interpreter driven by a budget decremented on every reduction,
with exhaustion a hard error.  An `Ir` is abstracted to the number of
reductions its evaluation performs and the produced constant value; the
re-entry into the query engine for referenced constants is not needed by any
claim and is omitted. -/
def evalConst (ir : Ir) (budget : Nat) : Option Nat :=
  match evalSteps ir.steps budget with
  | none => none
  | some _ => some ir.value

/-- `Query::build_indexed_entry`.  The single recursive knot of the engine:
the `Variant` branch re-enters `query_meta` for the enclosing enum, which is
inlined here (the `queryMeta` / `queryIndexedMeta` wrappers below unfold to
exactly this code) so that the recursion is structural on `fuel`.  The Rust
recursion is unbounded; every theorem supplies enough fuel. -/
def buildIndexedEntry : Nat → QueryState → Span → IndexedEntry → Used →
    Except QErr PrivMeta × QueryState
  | 0, s, _, _, _ => (.error .outOfFuel, s)
  | fuel + 1, s, sp, entry, used =>
    let im := entry.itemMeta
    let finish := fun (kind : PrivMetaKind) (s' : QueryState) =>
      ((Except.ok ⟨im, kind, some im.location⟩ :
          Except QErr PrivMeta), s')
    match entry.indexed with
    | .enumEntry => finish (.enumKind (itemTypeHash im.item)) s
    | .variantEntry enumId body index =>
      match ilookup s.items enumId with
      | none => (.error .missingId, s)
      | some enumItemMeta =>
        -- query_meta(span, enum_item.item, Default::default()), inlined.
        let q : Except QErr (Option PrivMeta) × QueryState :=
          match alookup s.meta enumItemMeta.item with
          | some m => (.ok (some m), s)
          | none =>
            match removeIndexed s enumItemMeta.item with
            | (.error e, s') => (.error e, s')
            | (.ok none, s') => (.ok none, s')
            | (.ok (some entry'), s') =>
              match buildIndexedEntry fuel s' sp entry' Used.used with
              | (.error e, s₂) => (.error e, s₂)
              | (.ok m, s₂) =>
                let s₃ := { s₂ with unitMetas := s₂.unitMetas ++ [m] }
                match insertMeta s₃ m with
                | (.error e, s₄) => (.error e, s₄)
                | (.ok _, s₄) => (.ok (some m), s₄)
        match q with
        | (.error e, s₁) => (.error e, s₁)
        | (.ok _, s₁) =>
          let enumHash := itemTypeHash enumItemMeta.item
          finish (variantIntoItemDecl im.item body
            (some (enumItemMeta.item, enumHash, index))) s₁
    | .structEntry body => finish (structIntoItemDecl im.item body none) s
    | .functionEntry isTest isBench =>
      let s := { s with queue := s.queue ++ [⟨im, used, .function⟩] }
      finish (.functionKind (itemTypeHash im.item) isTest isBench) s
    | .instanceFunctionEntry =>
      let s := { s with queue := s.queue ++ [⟨im, used, .instanceFunction⟩] }
      finish (.functionKind (itemTypeHash im.item) false false) s
    | .closureEntry captures doMove =>
      let s := { s with queue := s.queue ++ [⟨im, used, .closure⟩] }
      finish (.closureKind (itemTypeHash im.item) captures doMove) s
    | .asyncBlockEntry captures doMove =>
      let s := { s with queue := s.queue ++ [⟨im, used, .asyncBlock⟩] }
      finish (.asyncBlockKind (itemTypeHash im.item) captures doMove) s
    | .constEntry _module ir =>
      match evalConst ir 1000000 with
      | none => (.error .budgetExceeded, s)
      | some constValue =>
        let s :=
          if used.isUnused then
            { s with queue := s.queue ++ [⟨im, used, .unused⟩] }
          else s
        finish (.constKind constValue) s
    | .constFnEntry _location =>
      let id := s.genNext
      let s := { s with constFns := s.constFns ++ [(id, im)], genNext := s.genNext + 1 }
      let s :=
        if used.isUnused then
          { s with queue := s.queue ++ [⟨im, used, .unused⟩] }
        else s
      finish (.constFnKind id) s
    | .importEntry ie wildcard =>
      let s :=
        if !wildcard then
          { s with queue := s.queue ++ [⟨im, used, .importB ie wildcard⟩] }
        else s
      finish (.importKind ie) s
    | .moduleEntry => finish .moduleKind s

/-- `Query::query_indexed_meta`: remove the indexed entry, build it, install
the meta into the unit and the meta cache. -/
def queryIndexedMeta (fuel : Nat) (s : QueryState) (sp : Span) (item : Item)
    (used : Used) : Except QErr (Option PrivMeta) × QueryState :=
  match removeIndexed s item with
  | (.error e, s') => (.error e, s')
  | (.ok none, s') => (.ok none, s')
  | (.ok (some entry), s') =>
    match buildIndexedEntry fuel s' sp entry used with
    | (.error e, s₂) => (.error e, s₂)
    | (.ok m, s₂) =>
      let s₃ := { s₂ with unitMetas := s₂.unitMetas ++ [m] }
      match insertMeta s₃ m with
      | (.error e, s₄) => (.error e, s₄)
      | (.ok _, s₄) => (.ok (some m), s₄)

/-- `Query::query_meta`: cached meta if present, else build from the index. -/
def queryMeta (fuel : Nat) (s : QueryState) (sp : Span) (item : Item)
    (used : Used) : Except QErr (Option PrivMeta) × QueryState :=
  match alookup s.meta item with
  | some m => (.ok (some m), s)
  | none => queryIndexedMeta fuel s sp item used

/-- `Query::import_indexed`: build a non-import entry found during an import
step in place, installing its meta. -/
def importIndexed (fuel : Nat) (s : QueryState) (sp : Span) (itemMeta : ItemMeta)
    (indexed : Indexed) (used : Used) : Except QErr Unit × QueryState :=
  match buildIndexedEntry fuel s sp ⟨itemMeta, indexed⟩ used with
  | (.error e, s') => (.error e, s')
  | (.ok m, s') =>
    let s₂ := { s' with unitMetas := s'.unitMetas ++ [m] }
    match insertMeta s₂ m with
    | (.error e, s₃) => (.error e, s₃)
    | (.ok _, s₃) => (.ok (), s₃)

/-- The visibility relation of `Query::check_access_to` (module-ancestry walk,
`Visibility::is_visible`), abstracted to a boolean policy: the claims concern
only whether and when the check runs, which is instrumented in
`QueryState.accessChecks`. -/
def AccessPolicy : Type :=
  ModId → Item → ModId → Visibility → Bool

/-- `Query::check_access_to`: records the check, then either admits the access
or fails, embedding the diagnostic chain (`std::mem::take(chain)`) into the
error. -/
def checkAccessTo (pol : AccessPolicy) (s : QueryState) (fromMod : ModId)
    (item : Item) (module : ModId) (location : Location) (vis : Visibility)
    (chain : List ImportStepM) : Except QErr Unit × QueryState :=
  let s := { s with accessChecks := s.accessChecks ++ [item] }
  if pol fromMod item module vis then (.ok (), s)
  else (.error (.notVisible (chain.map (·.location)) location item), s)

/-- `Query::import_step`: a prefix with cached meta is followed as a redirect
when that meta is an import (no visibility check); otherwise any indexed entry
for the prefix is removed, its visibility checked, and either returned as a
redirect (imports, installing their meta) or built in place (anything else). -/
def importStep (fuel : Nat) (pol : AccessPolicy) (s : QueryState) (sp : Span)
    (module : ModId) (item : Item) (used : Used) (path : List ImportStepM) :
    Except QErr (Option ImportEntry) × QueryState :=
  match alookup s.meta item with
  | some m =>
    match m.kind with
    | .importKind e => (.ok (some e), s)
    | _ => (.ok none, s)
  | none =>
    match removeIndexed s item with
    | (.error e, s') => (.error e, s')
    | (.ok none, s') => (.ok none, s')
    | (.ok (some entry), s') =>
      match checkAccessTo pol s' module item entry.itemMeta.module
          entry.itemMeta.location entry.itemMeta.visibility path with
      | (.error e, s₂) => (.error e, s₂)
      | (.ok _, s₂) =>
        match entry.indexed with
        | .importEntry ie _wildcard =>
          match insertMeta s₂ ⟨entry.itemMeta, .importKind ie, none⟩ with
          | (.error e, s₃) => (.error e, s₃)
          | (.ok _, s₃) => (.ok (some ie), s₃)
        | idx =>
          match importIndexed fuel s₂ sp entry.itemMeta idx used with
          | (.error e, s₃) => (.error e, s₃)
          | (.ok _, s₃) => (.ok none, s₃)

/-- The permitted number of import recursions when constructing a path. -/
def IMPORT_RECURSION_LIMIT : Nat := 128

/-- The inner walk of `Query::import`: extend the prefix one component at a
time and call `import_step`; the first prefix that yields a redirect wins,
returning it together with the untraversed tail. -/
def walkComponents (fuel : Nat) (pol : AccessPolicy) (sp : Span) :
    QueryState → ModId → Used → List ImportStepM → Item → List Component →
    Except QErr (Option (ImportEntry × List Component)) × QueryState
  | s, _, _, _, _, [] => (.ok none, s)
  | s, module, used, path, cur, c :: it =>
    let cur' := cur ++ [c]
    match importStep fuel pol s sp module cur' used path with
    | (.error e, s') => (.error e, s')
    | (.ok (some update), s') => (.ok (some (update, it)), s')
    | (.ok none, s') => walkComponents fuel pol sp s' module used path cur' it

/-- The outer loop of `Query::import`.  `loopFuel` is a model artifact: the
`count` guard caps the loop at 130 iterations, so any `loopFuel ≥ 131` makes
the exhaustion branch unreachable. -/
def importLoop (fuel : Nat) (pol : AccessPolicy) (sp : Span) :
    Nat → QueryState → ModId → Item → List Item → List ImportStepM → Nat →
    Bool → Used → Except QErr (Option Item) × QueryState
  | 0, s, _, _, _, _, _, _, _ => (.error .outOfFuel, s)
  | loopFuel + 1, s, module, item, visited, path, count, anyMatched, used =>
    if count > IMPORT_RECURSION_LIMIT then
      (.error (.importRecursionLimit count path), s)
    else
      -- `count += 1` happens before the walk; the walk does not read it.
      match walkComponents fuel pol sp s module used path [] item with
      | (.error e, s') => (.error e, s')
      | (.ok none, s') => (.ok (if anyMatched then some item else none), s')
      | (.ok (some (update, tail)), s') =>
        let path' := path ++ [⟨update.location, update.target⟩]
        if item ∈ visited then (.error (.importCycle path'), s')
        else
          importLoop fuel pol sp loopFuel s' update.module
            (update.target ++ tail) (visited ++ [item]) path' (count + 1) true used

/-- `Query::import`: resolve an item through import redirects, starting with an
empty visited set, an empty diagnostic path and a zero hop counter.  Returns
the rewritten item when any redirect fired, `none` otherwise. -/
def importFn (fuel : Nat) (pol : AccessPolicy) (s : QueryState) (sp : Span)
    (module : ModId) (item : Item) (used : Used) :
    Except QErr (Option Item) × QueryState :=
  importLoop fuel pol sp 131 s module item [] [] 0 false used

/-! ### Field-access emitter (`compiling/assemble/expr_field_access.rs`) -/

/-- A target address for an instruction (`InstAddress`). -/
inductive InstAddress where
  | top
  | offset (n : Nat)
deriving DecidableEq, Repr

/-- The instruction surface of the field-access path (`Inst`); `other` stands
in for the instructions emitted while assembling the receiver expression. -/
inductive Inst where
  | tupleIndexGet (target : InstAddress) (index : Nat)
  | objectIndexGet (target : InstAddress) (slot : Nat)
  | pop
  | other (code : Nat)
deriving DecidableEq, Repr

/-- A resolved numeric literal (`ast::Number`), with `integer` unbounded as in
the source representation. -/
inductive Number where
  | integer (i : Int)
  | float
deriving DecidableEq, Repr

/-- The field of a field access (`ast::ExprField`), carrying its resolved
payload (resolution against storage/source is outside `src/`). -/
inductive ExprField where
  | litNumber (n : Number)
  | ident (name : String)
deriving DecidableEq, Repr

/-- The receiver of a field access.  The assembly of a general subexpression is
an external collaborator here, so an expression carries the instructions its
assembly emits and the address `consuming_address` yields; a `path` receiver
additionally records `Path::try_as_ident` (`some` only for a bare ident). -/
inductive FAExpr where
  | path (tryAsIdent : Option String) (insts : List (Inst × Span)) (addr : InstAddress)
  | other (insts : List (Inst × Span)) (addr : InstAddress)
deriving DecidableEq, Repr

/-- `ast::ExprFieldAccess`. -/
structure ExprFieldAccess where
  expr : FAExpr
  exprField : ExprField
  span : Span
deriving DecidableEq, Repr

/-- The slice of `Compiler` state touched by this emitter: the assembly, the
`not_used` warnings (source id and span), the local scope (ident to offset)
and the unit's static-string table. -/
structure Compiler where
  sourceId : SourceId
  asm : List (Inst × Span)
  warnings : List (SourceId × Span)
  scopes : List (String × Nat)
  staticStrings : List String
deriving DecidableEq, Repr

/-- The value an assembly step produces (`Value::empty` / `Value::unnamed`). -/
inductive CValue where
  | empty (span : Span)
  | unnamed (span : Span)
deriving DecidableEq, Repr

/-- Compile errors reachable from this emitter. -/
inductive CErr where
  | badFieldAccess
deriving DecidableEq, Repr

/-- Modelled from the spec: `usize::try_from` on an unbounded integer literal
(the literal storage is not under `src/`): succeeds exactly for values that
fit a machine-sized unsigned index. -/
def usizeOfInt (i : Int) : Option Nat :=
  if 0 ≤ i ∧ i < 2 ^ 64 then some i.toNat else none

/-- Modelled from the spec: `ast::Number::as_tuple_index` (not under `src/`):
a numeric literal resolves as a tuple index exactly when it is a non-negative
integer fitting a machine-sized unsigned index. -/
def asTupleIndex (n : Number) : Option Nat :=
  match n with
  | .integer i => usizeOfInt i
  | .float => none

/-- Scope lookup (`scopes.try_get_var`): the variable's stack offset, if the
identifier names a local in scope (guard translation is the identity here). -/
def tryGetVar (c : Compiler) (ident : String) : Option Nat :=
  match c.scopes.find? (fun p => p.1 = ident) with
  | some p => some p.2
  | none => none

/-- `UnitBuilder::new_static_string`: intern the string, returning its slot. -/
def newStaticString (c : Compiler) (s : String) : Nat × Compiler :=
  match c.staticStrings.indexOf? s with
  | some i => (i, c)
  | none => (c.staticStrings.length, { c with staticStrings := c.staticStrings ++ [s] })

/-- Assembling the receiver expression for the general path
(`self.expr.assemble(c, Needs::Value)?.consuming_address(c)?`): emits the
expression's instructions and yields its address. -/
def assembleSubExpr (c : Compiler) (e : FAExpr) : InstAddress × Compiler :=
  match e with
  | .path _ insts addr => (addr, { c with asm := c.asm ++ insts })
  | .other insts addr => (addr, { c with asm := c.asm ++ insts })

/-- `try_immediate_field_access_optimization`: fires only for a bare identifier
naming a local in scope with a non-negative integer literal field fitting a
machine-sized index; emits `TupleIndexGet` (plus warning and `Pop` when the
value is unused) and returns an unnamed value. -/
def tryImmediateFieldAccessOptimization (c : Compiler) (span : Span)
    (tryAsIdent : Option String) (n : Number) (needsValue : Bool) :
    Option CValue × Compiler :=
  match tryAsIdent with
  | none => (none, c)
  | some ident =>
    match n with
    | .float => (none, c)
    | .integer i =>
      match usizeOfInt i with
      | none => (none, c)
      | some index =>
        match tryGetVar c ident with
        | none => (none, c)
        | some offset =>
          let c := { c with
            asm := c.asm ++ [(.tupleIndexGet (.offset offset) index, span)] }
          let c :=
            if !needsValue then
              let c := { c with warnings := c.warnings ++ [(c.sourceId, span)] }
              { c with asm := c.asm ++ [(.pop, span)] }
            else c
          (some (.unnamed span), c)

/-- The general path of `Assemble for ast::ExprFieldAccess`: assemble the
receiver, then dispatch on the field; numeric literals that resolve as tuple
indices emit `TupleIndexGet`, identifiers emit `ObjectIndexGet`, and an
unresolvable numeric literal is `BadFieldAccess`. -/
def assembleFieldAccessSlow (c : Compiler) (expr : FAExpr) (field : ExprField)
    (span : Span) (needsValue : Bool) : Except CErr (CValue × Compiler) :=
  let (target, c) := assembleSubExpr c expr
  match field with
  | .litNumber n =>
    match asTupleIndex n with
    | none => .error .badFieldAccess
    | some index =>
      let c := { c with asm := c.asm ++ [(.tupleIndexGet target index, span)] }
      if !needsValue then
        let c := { c with warnings := c.warnings ++ [(c.sourceId, span)] }
        let c := { c with asm := c.asm ++ [(.pop, span)] }
        .ok (.empty span, c)
      else
        .ok (.unnamed span, c)
  | .ident name =>
    let (slot, c) := newStaticString c name
    let c := { c with asm := c.asm ++ [(.objectIndexGet target slot, span)] }
    if !needsValue then
      let c := { c with warnings := c.warnings ++ [(c.sourceId, span)] }
      let c := { c with asm := c.asm ++ [(.pop, span)] }
      .ok (.empty span, c)
    else
      .ok (.unnamed span, c)

/-- `Assemble for ast::ExprFieldAccess`: the immediate-local fast path is tried
for a path receiver with a numeric-literal field; otherwise (or when the fast
path declines) the general path runs. -/
def assembleFieldAccess (c : Compiler) (e : ExprFieldAccess) (needsValue : Bool) :
    Except CErr (CValue × Compiler) :=
  let span := e.span
  match e.expr, e.exprField with
  | .path tryAsIdent insts addr, .litNumber n =>
    match tryImmediateFieldAccessOptimization c span tryAsIdent n needsValue with
    | (some value, c') => .ok (value, c')
    | (none, c') =>
      assembleFieldAccessSlow c' (.path tryAsIdent insts addr) (.litNumber n)
        span needsValue
  | expr, field => assembleFieldAccessSlow c expr field span needsValue

/-! ### Scenario configurations and predicates used by the theorems -/

/-- The empty query state (`QueryInner::default()`). -/
def emptyState : QueryState := ⟨[], [], [], [], [], [], [], [], [], 0⟩

/-- A policy admitting every access (all items public from everywhere). -/
def allowAll : AccessPolicy := fun _ _ _ _ => true

/-- A deterministic location for the j-th import declaration of a scenario. -/
def dLoc (j : Nat) : Location := ⟨j, j⟩

/-- The indexed non-wildcard import entry `use … as [j]` redirecting the
single-component item `[j]` to `tgt`. -/
def redirectEntry (j : Nat) (tgt : Item) : IndexedEntry :=
  ⟨⟨j, dLoc j, [j], 0, .publicV⟩, .importEntry ⟨dLoc j, tgt, 0⟩ false⟩

/-- The meta `import_step` installs when it resolves `redirectEntry j tgt`. -/
def redirectMeta (j : Nat) (tgt : Item) : PrivMeta :=
  ⟨⟨j, dLoc j, [j], 0, .publicV⟩, .importKind ⟨dLoc j, tgt, 0⟩, none⟩

/-- The still-indexed tail of an import scenario: entries for items
`[j], [j+1], …, [j+m-1]`, each redirecting `[i]` to `t i`. -/
def redirectIdx (t : Nat → Item) : Nat → Nat → List (Item × List IndexedEntry)
  | _, 0 => []
  | j, m + 1 => ([j], [redirectEntry j (t j)]) :: redirectIdx t (j + 1) m

/-- The meta cache after the first `j` redirects of an import scenario. -/
def redirectMetaList (t : Nat → Item) (j : Nat) : List (Item × PrivMeta) :=
  (List.range j).map (fun i => ([i], redirectMeta i (t i)))

/-- The visited set after the first `j` redirects. -/
def visitedL (j : Nat) : List Item :=
  (List.range j).map (fun i => [i])

/-- The diagnostic path after the first `j` redirects. -/
def pathL (t : Nat → Item) (j : Nat) : List ImportStepM :=
  (List.range j).map (fun i => ⟨dLoc i, t i⟩)

/-- The full query state of an import scenario over `n` single-component
items, after the first `j` redirects have been resolved. -/
def midState (t : Nat → Item) (n j : Nat) : QueryState :=
  { emptyState with
    meta := redirectMetaList t j
    indexed := redirectIdx t j (n - j)
    registered := (List.range j).map (fun i => redirectMeta i (t i))
    accessChecks := visitedL j }

/-- Redirect targets of a straight chain: `[j]` imports `[j+1]`. -/
def chainT (j : Nat) : Item := [j + 1]

/-- A straight (non-cyclic) import chain of `n` hops: `[0] → [1] → … → [n]`,
with `[n]` itself unresolved. -/
def chainState (n : Nat) : QueryState := midState chainT n 0

/-- Redirect targets of a cycle of length `k`: `[j]` imports `[(j+1) % k]`. -/
def cycT (k j : Nat) : Item := [(j + 1) % k]

/-- A cyclic import chain of length `k`: `[0] → [1] → … → [k-1] → [0]`. -/
def cycState (k : Nat) : QueryState := midState (cycT k) k 0

/-- A witness fixture: a query state holding one indexed `Const` entry for
item `[7]` whose ir needs 1,000,001 reductions. -/
def constFixture : QueryState :=
  { emptyState with indexed :=
      [([7], [⟨⟨5, dLoc 5, [7], 0, .publicV⟩, .constEntry 0 ⟨1000001, 42⟩⟩])] }

/-- A witness fixture: a query state holding one indexed non-wildcard import
entry redirecting `[4]` to `[8]`. -/
def stepFixture : QueryState :=
  { emptyState with indexed :=
      [([4], [⟨⟨2, dLoc 2, [4], 0, .publicV⟩, .importEntry ⟨dLoc 2, [8], 0⟩ false⟩])] }

/-- A witness fixture: a compiler with one local `t` at stack offset 0. -/
def fieldFixtureCompiler : Compiler := ⟨0, [], [], [("t", 0)], []⟩

/-- Whether an indexed entry is an import. -/
def isImport (e : IndexedEntry) : Bool :=
  match e.indexed with
  | .importEntry _ _ => true
  | _ => false

/-- Whether an indexed entry is a non-wildcard import. -/
def isNonWildImport (e : IndexedEntry) : Bool :=
  match e.indexed with
  | .importEntry _ w => !w
  | _ => false

/-! ### Basic lemmas about the association-list operations -/

theorem alookup_append {α : Type} (l₁ l₂ : List (Item × α)) (k : Item) :
    alookup (l₁ ++ l₂) k =
      match alookup l₁ k with
      | some v => some v
      | none => alookup l₂ k := by
  induction l₁ with
  | nil => simp [alookup]
  | cons p rest ih =>
    obtain ⟨k', v⟩ := p
    by_cases h : k' = k <;> simp [alookup, h, ih]

theorem alookup_append_of_none {α : Type} {l₁ : List (Item × α)} {k : Item}
    (h : alookup l₁ k = none) (l₂ : List (Item × α)) :
    alookup (l₁ ++ l₂) k = alookup l₂ k := by
  rw [alookup_append, h]

theorem alookup_append_of_some {α : Type} {l₁ : List (Item × α)} {k : Item}
    {v : α} (h : alookup l₁ k = some v) (l₂ : List (Item × α)) :
    alookup (l₁ ++ l₂) k = some v := by
  rw [alookup_append, h]

theorem alookup_erase_of_none {α : Type} {l : List (Item × α)} {j : Item}
    (h : alookup l j = none) (k : Item) :
    alookup (alistErase l k) j = none := by
  induction l with
  | nil => simp [alistErase, alookup]
  | cons p rest ih =>
    obtain ⟨k', v⟩ := p
    by_cases hk : k' = j
    · simp [alookup, hk] at h
    · simp only [alookup, if_neg hk] at h
      by_cases he : k' = k <;> simp [alistErase, alookup, he, hk, ih h] <;>
        simpa [alistErase] using ih h

/-! ### Claims C5 and C9: `insert_meta` is write-once -/

/-- Claim C9: `insert_meta` rejects every second insertion for the same item,
even when the new meta is identical to the already-cached one: any occupied
meta-cache slot causes `MetaConflict` (carrying the incoming and the existing
meta) regardless of whether the two metas differ, and the meta cache is left
unchanged. -/
theorem insert_meta_occupied_conflict (s : QueryState) (m existing : PrivMeta)
    (h : alookup s.meta m.itemMeta.item = some existing) :
    (insertMeta s m).1 = .error (.metaConflict m existing) ∧
    (insertMeta s m).2.meta = s.meta := by
  simp [insertMeta, h]

/-- Witness for C9: re-inserting the very same meta for item `[1]` conflicts. -/
theorem insert_meta_occupied_conflict_witness :
    (insertMeta
      { emptyState with
        meta := [([1], ⟨⟨0, dLoc 0, [1], 0, .publicV⟩, .moduleKind, none⟩)] }
      ⟨⟨0, dLoc 0, [1], 0, .publicV⟩, .moduleKind, none⟩).1
      = .error (.metaConflict ⟨⟨0, dLoc 0, [1], 0, .publicV⟩, .moduleKind, none⟩
          ⟨⟨0, dLoc 0, [1], 0, .publicV⟩, .moduleKind, none⟩) :=
  (insert_meta_occupied_conflict _ _ _ (by decide)).1

/-- Claim C5: `insert_meta` succeeds at most once per item: after a successful
insertion of `m`, any later call (over any state whose cache still holds what
the insertion produced for that item) with a differing meta for the same item
fails with `MetaConflict` reporting both the incoming and the existing meta,
and leaves the meta cache unchanged. -/
theorem insert_meta_write_once (s s₂ : QueryState) (m m' : PrivMeta)
    (hok : (insertMeta s m).1 = .ok ())
    (hitem : m'.itemMeta.item = m.itemMeta.item)
    (_hne : m' ≠ m)
    (hlater : alookup s₂.meta m.itemMeta.item
      = alookup (insertMeta s m).2.meta m.itemMeta.item) :
    (insertMeta s₂ m').1 = .error (.metaConflict m' m) ∧
    (insertMeta s₂ m').2.meta = s₂.meta := by
  have hnone : alookup s.meta m.itemMeta.item = none := by
    by_contra hcon
    obtain ⟨ex, hex⟩ := Option.ne_none_iff_exists'.mp hcon
    simp [insertMeta, hex] at hok
  have hpost : alookup (insertMeta s m).2.meta m.itemMeta.item = some m := by
    simp only [insertMeta, hnone]
    rw [alookup_append, hnone]
    simp [alookup]
  have h₂ : alookup s₂.meta m'.itemMeta.item = some m := by
    rw [hitem, hlater, hpost]
  simp [insertMeta, h₂]

/-- Witness for C5: inserting a module meta for `[2]` and then a differing
enum meta for `[2]` conflicts, reporting both. -/
theorem insert_meta_write_once_witness :
    (insertMeta (insertMeta emptyState
        ⟨⟨0, dLoc 0, [2], 0, .publicV⟩, .moduleKind, none⟩).2
      ⟨⟨0, dLoc 0, [2], 0, .publicV⟩, .enumKind 3, none⟩).1
      = .error (.metaConflict ⟨⟨0, dLoc 0, [2], 0, .publicV⟩, .enumKind 3, none⟩
          ⟨⟨0, dLoc 0, [2], 0, .publicV⟩, .moduleKind, none⟩) :=
  (insert_meta_write_once emptyState _
    ⟨⟨0, dLoc 0, [2], 0, .publicV⟩, .moduleKind, none⟩
    ⟨⟨0, dLoc 0, [2], 0, .publicV⟩, .enumKind 3, none⟩
    rfl rfl (by decide) rfl).1

/-! ### Claim C1: `remove_indexed` wildcard resolution -/

theorem resolve_nonimport (cur oth : IndexedEntry) (rest : List IndexedEntry)
    (locs : List (Location × Item)) (h : isImport cur = false) :
    resolveIndexed cur locs (oth :: rest)
      = .error (.ambiguousItem cur.itemMeta.item
          (locs ++ (oth :: rest).map entryLocPair)) := by
  cases hcur : cur.indexed <;> simp [isImport, hcur] at h ⊢ <;>
    cases hoth : oth.indexed <;> simp [resolveIndexed, hcur, hoth]

theorem isImport_exists (x : IndexedEntry) (h : isImport x = true) :
    ∃ e w, x.indexed = .importEntry e w := by
  cases hx : x.indexed <;> simp [isImport, hx] at h ⊢

theorem resolve_nonimport_oth (cur oth : IndexedEntry) (rest : List IndexedEntry)
    (locs : List (Location × Item)) (hoth : isImport oth = false) :
    resolveIndexed cur locs (oth :: rest)
      = .error (.ambiguousItem cur.itemMeta.item
          (locs ++ (oth :: rest).map entryLocPair)) := by
  cases hcur : cur.indexed <;> cases hoth' : oth.indexed <;>
    simp [isImport, hoth'] at hoth ⊢ <;> simp [resolveIndexed, hcur, hoth']

theorem resolve_import_spec (rest : List IndexedEntry) :
    ∀ (cur : IndexedEntry) (e : ImportEntry) (w : Bool)
      (locs : List (Location × Item)) (I : Item),
    cur.indexed = .importEntry e w →
    cur.itemMeta.item = I →
    (∀ x ∈ rest, x.itemMeta.item = I) →
    ((rest.all isImport = true ∧ ((cur :: rest).filter isNonWildImport).length = 1) →
      resolveIndexed cur locs rest = .ok ((cur :: rest).find? isNonWildImport))
    ∧ (¬(rest.all isImport = true ∧ ((cur :: rest).filter isNonWildImport).length = 1) →
      resolveIndexed cur locs rest
        = .error (.ambiguousItem I (locs ++ rest.map entryLocPair))) := by
  induction rest with
  | nil =>
    intro cur e w locs I hcur hI _
    cases w with
    | false =>
      constructor
      · intro _
        simp [resolveIndexed, hcur, isNonWildImport, List.find?]
      · intro hn
        exact absurd ⟨rfl, by simp [List.filter, isNonWildImport, hcur]⟩ hn
    | true =>
      constructor
      · intro ⟨_, hlen⟩
        simp [List.filter, isNonWildImport, hcur] at hlen
      · intro _
        simp [resolveIndexed, hcur, hI]
  | cons oth rest' ih =>
    intro cur e w locs I hcur hI hall
    have hothI : oth.itemMeta.item = I := hall oth (by simp)
    have hall' : ∀ x ∈ rest', x.itemMeta.item = I := fun x hx => hall x (by simp [hx])
    by_cases hothimp : isImport oth = true
    case neg =>
      have hothf : isImport oth = false := by simpa using hothimp
      refine ⟨fun hc => absurd hc ?_, fun _ => ?_⟩
      · intro ⟨hallimp, _⟩
        simp [List.all_cons, hothf] at hallimp
      · rw [resolve_nonimport_oth cur oth rest' locs hothf, hI]
    case pos =>
      obtain ⟨e', w', hoth⟩ := isImport_exists oth hothimp
      cases w with
      | true =>
        -- cur is a wildcard import: it is replaced by `oth`.
        have hstep : resolveIndexed cur locs (oth :: rest')
            = resolveIndexed oth (locs ++ [entryLocPair oth]) rest' := by
          simp [resolveIndexed, hcur, hoth]
        obtain ⟨ihok, iherr⟩ := ih oth e' w' (locs ++ [entryLocPair oth]) I hoth hothI hall'
        have hfilter : (cur :: oth :: rest').filter isNonWildImport
            = (oth :: rest').filter isNonWildImport := by
          simp [List.filter, isNonWildImport, hcur]
        have hfind : (cur :: oth :: rest').find? isNonWildImport
            = (oth :: rest').find? isNonWildImport := by
          simp [List.find?, isNonWildImport, hcur]
        constructor
        · intro ⟨hallimp, hlen⟩
          have : rest'.all isImport = true := by
            simp only [List.all_cons, Bool.and_eq_true] at hallimp
            exact hallimp.2
          rw [hstep, hfind]
          exact ihok ⟨this, by rw [← hfilter]; exact hlen⟩
        · intro hn
          rw [hstep]
          have : ¬(rest'.all isImport = true
              ∧ ((oth :: rest').filter isNonWildImport).length = 1) := by
            intro ⟨h1, h2⟩
            exact hn ⟨by simp [List.all_cons, isImport, hoth, h1],
              by rw [hfilter]; exact h2⟩
          rw [iherr this]
          simp
      | false =>
        cases w' with
        | true =>
          -- oth is a wildcard import: cur survives.
          have hstep : resolveIndexed cur locs (oth :: rest')
              = resolveIndexed cur (locs ++ [entryLocPair oth]) rest' := by
            simp [resolveIndexed, hcur, hoth]
          obtain ⟨ihok, iherr⟩ := ih cur e false (locs ++ [entryLocPair oth]) I hcur hI hall'
          have hfilter : (cur :: oth :: rest').filter isNonWildImport
              = (cur :: rest').filter isNonWildImport := by
            simp [List.filter, isNonWildImport, hcur, hoth]
          have hfind : (cur :: oth :: rest').find? isNonWildImport
              = (cur :: rest').find? isNonWildImport := by
            simp [List.find?, isNonWildImport, hcur]
          constructor
          · intro ⟨hallimp, hlen⟩
            have : rest'.all isImport = true := by
              simp only [List.all_cons, Bool.and_eq_true] at hallimp
              exact hallimp.2
            rw [hstep, hfind]
            exact ihok ⟨this, by rw [← hfilter]; exact hlen⟩
          · intro hn
            rw [hstep]
            have : ¬(rest'.all isImport = true
                ∧ ((cur :: rest').filter isNonWildImport).length = 1) := by
              intro ⟨h1, h2⟩
              exact hn ⟨by simp [List.all_cons, isImport, hoth, h1],
                by rw [hfilter]; exact h2⟩
            rw [iherr this]
            simp
        | false =>
          -- two non-wildcard imports: ambiguous with every location.
          have hstep : resolveIndexed cur locs (oth :: rest')
              = .error (.ambiguousItem cur.itemMeta.item
                  ((locs ++ [entryLocPair oth]) ++ rest'.map entryLocPair)) := by
            simp [resolveIndexed, hcur, hoth]
          have hcond : ¬((oth :: rest').all isImport = true
              ∧ ((cur :: oth :: rest').filter isNonWildImport).length = 1) := by
            intro ⟨_, hlen⟩
            simp [List.filter, isNonWildImport, hcur, hoth] at hlen
          constructor
          · intro hc
            exact absurd hc hcond
          · intro _
            rw [hstep, hI]
            simp

/-- Claim C1: for an item whose indexed entry list has more than one entry,
`remove_indexed` returns the single non-wildcard entry when the list consists
of imports with exactly one non-wildcard among them; in every other
multi-entry case (more than one non-wildcard entry, or only wildcard imports)
it fails with `AmbiguousItem` carrying the location of every conflicting
entry, in insertion order. -/
theorem remove_indexed_wildcard_resolution (s : QueryState) (I : Item)
    (es : List IndexedEntry)
    (hidx : alookup s.indexed I = some es)
    (hlen : 2 ≤ es.length)
    (hall : ∀ e ∈ es, e.itemMeta.item = I) :
    ((es.all isImport = true ∧ (es.filter isNonWildImport).length = 1) →
      (removeIndexed s I).1 = .ok (es.find? isNonWildImport))
    ∧ (¬(es.all isImport = true ∧ (es.filter isNonWildImport).length = 1) →
      (removeIndexed s I).1 = .error (.ambiguousItem I (es.map entryLocPair))) := by
  cases es with
  | nil => simp at hlen
  | cons a t =>
    cases t with
    | nil => simp at hlen
    | cons b r =>
      have hres : (removeIndexed s I).1 = resolveIndexed a [entryLocPair a] (b :: r) := by
        simp [removeIndexed, hidx]
      by_cases haimp : isImport a = true
      · obtain ⟨e, w, ha⟩ := isImport_exists a haimp
        obtain ⟨hok, herr⟩ := resolve_import_spec (b :: r) a e w [entryLocPair a] I ha
          (hall a (by simp)) (fun x hx => hall x (by simp [hx]))
        constructor
        · intro ⟨hallimp, hlen1⟩
          rw [hres, hok ⟨by simpa [List.all_cons, haimp] using hallimp, hlen1⟩]
        · intro hn
          have hcond : ¬((b :: r).all isImport = true
              ∧ ((a :: b :: r).filter isNonWildImport).length = 1) := by
            intro ⟨h1, h2⟩
            exact hn ⟨by simp [List.all_cons, haimp, h1], h2⟩
          rw [hres, herr hcond]
          simp
      · have haf : isImport a = false := by simpa using haimp
        constructor
        · intro ⟨hallimp, _⟩
          simp [List.all_cons, haf] at hallimp
        · intro _
          rw [hres, resolve_nonimport a b r [entryLocPair a] haf, hall a (by simp)]
          simp

/-- Witness for C1: a wildcard import, a non-wildcard import and another
wildcard import of item `[9]` resolve to the non-wildcard one (scenario S5). -/
theorem remove_indexed_wildcard_resolution_witness :
    (removeIndexed
      { emptyState with indexed :=
          [([9], [⟨⟨0, dLoc 0, [9], 0, .publicV⟩, .importEntry ⟨dLoc 0, [50], 0⟩ true⟩,
                  ⟨⟨1, dLoc 1, [9], 0, .publicV⟩, .importEntry ⟨dLoc 1, [51], 0⟩ false⟩,
                  ⟨⟨2, dLoc 2, [9], 0, .publicV⟩, .importEntry ⟨dLoc 2, [52], 0⟩ true⟩])] }
      [9]).1
      = .ok ([⟨⟨0, dLoc 0, [9], 0, .publicV⟩, .importEntry ⟨dLoc 0, [50], 0⟩ true⟩,
              ⟨⟨1, dLoc 1, [9], 0, .publicV⟩, .importEntry ⟨dLoc 1, [51], 0⟩ false⟩,
              ⟨⟨2, dLoc 2, [9], 0, .publicV⟩, .importEntry ⟨dLoc 2, [52], 0⟩ true⟩].find?
          isNonWildImport) :=
  (remove_indexed_wildcard_resolution _ [9] _ (by decide) (by decide)
    (by decide)).1 ⟨by decide, by decide⟩

/-! ### Claim C7: constant evaluation budget -/

theorem evalSteps_spec : ∀ n b, evalSteps n b = if n ≤ b then some (b - n) else none := by
  intro n
  induction n with
  | zero => intro b; simp [evalSteps]
  | succ n ih =>
    intro b
    cases b with
    | zero => simp [evalSteps, irBudgetTake]
    | succ b =>
      rw [show evalSteps (n + 1) (b + 1) = evalSteps n b from rfl, ih b]
      by_cases h : n ≤ b
      · rw [if_pos h, if_pos (by omega : n + 1 ≤ b + 1)]
        congr 1
        omega
      · rw [if_neg h, if_neg (by omega)]

theorem evalConst_spec (ir : Ir) (b : Nat) :
    evalConst ir b = if ir.steps ≤ b then some ir.value else none := by
  simp [evalConst, evalSteps_spec]
  by_cases h : ir.steps ≤ b <;> simp [h]

/-- Claim C7: an indexed `Const` entry is evaluated under a budget of exactly
1,000,000 steps: an ir needing at least 1,000,001 reductions makes the query
fail with the budget-exceeded error and leaves the meta cache untouched (the
error propagates out of `build_indexed_entry` before `insert_meta` is
reached), while an ir needing at most 1,000,000 reductions builds the
constant's meta. -/
theorem const_budget_limit (s : QueryState) (sp : Span) (I : Item)
    (im : ItemMeta) (md : ModId) (ir : Ir) (used : Used) (fuel : Nat)
    (hmeta : alookup s.meta I = none)
    (hidx : alookup s.indexed I = some [⟨im, .constEntry md ir⟩])
    (hitem : im.item = I) :
    (1000001 ≤ ir.steps →
      (queryMeta (fuel + 1) s sp I used).1 = .error .budgetExceeded ∧
      (queryMeta (fuel + 1) s sp I used).2.meta = s.meta)
    ∧ (ir.steps ≤ 1000000 →
      (queryMeta (fuel + 1) s sp I used).1
        = .ok (some ⟨im, .constKind ir.value, some im.location⟩)) := by
  have hmeta' : alookup s.meta im.item = none := by rw [hitem]; exact hmeta
  constructor
  · intro hbig
    have hev : evalConst ir 1000000 = none := by
      rw [evalConst_spec, if_neg (by omega)]
    constructor <;>
      simp [queryMeta, hmeta, queryIndexedMeta, removeIndexed, hidx,
        buildIndexedEntry, hev]
  · intro hsmall
    have hev : evalConst ir 1000000 = some ir.value := by
      rw [evalConst_spec, if_pos hsmall]
    cases used <;>
      simp [queryMeta, hmeta, queryIndexedMeta, removeIndexed, hidx,
        buildIndexedEntry, hev, Used.isUnused, insertMeta, hmeta']

/-- Witness for C7: a constant whose ir needs 1,000,001 reductions fails with
the budget error and caches no meta. -/
theorem const_budget_limit_witness :
    (queryMeta (0 + 1) constFixture 0 [7] .used).1 = .error .budgetExceeded ∧
    (queryMeta (0 + 1) constFixture 0 [7] .used).2.meta = constFixture.meta :=
  (const_budget_limit constFixture 0 [7] ⟨5, dLoc 5, [7], 0, .publicV⟩ 0
    ⟨1000001, 42⟩ .used 0 rfl rfl rfl).1 (Nat.le_refl 1000001)

/-! ### Claim C6: the meta cache and the indexed map never both hold an item -/

theorem alookup_alistErase_self {α : Type} (l : List (Item × α)) (k : Item) :
    alookup (alistErase l k) k = none := by
  induction l with
  | nil => simp [alistErase, alookup]
  | cons p rest ih =>
    obtain ⟨k', v⟩ := p
    by_cases h : k' = k <;> simp [alistErase, alookup, h] at ih ⊢ <;>
      simpa [alistErase] using ih

theorem insertMeta_indexed (s : QueryState) (m : PrivMeta) :
    (insertMeta s m).2.indexed = s.indexed := by
  cases h : alookup s.meta m.itemMeta.item <;> simp [insertMeta, h]

theorem removeIndexed_self_none (s : QueryState) (I : Item) :
    alookup ((removeIndexed s I).2).indexed I = none := by
  cases h : alookup s.indexed I with
  | none => simp [removeIndexed, h]
  | some entries =>
    rcases entries with _ | ⟨a, _ | ⟨b, r⟩⟩ <;>
      simp [removeIndexed, h, alookup_alistErase_self]

theorem removeIndexed_indexed_none (s : QueryState) (it I : Item)
    (h : alookup s.indexed I = none) :
    alookup ((removeIndexed s it).2).indexed I = none := by
  cases hl : alookup s.indexed it with
  | none => simpa [removeIndexed, hl] using h
  | some entries =>
    rcases entries with _ | ⟨a, _ | ⟨b, r⟩⟩ <;>
      simp [removeIndexed, hl, alookup_erase_of_none h]

theorem buildIndexedEntry_indexed_none :
    ∀ (fuel : Nat) (s : QueryState) (sp : Span) (entry : IndexedEntry)
      (used : Used) (I : Item),
    alookup s.indexed I = none →
    alookup ((buildIndexedEntry fuel s sp entry used).2).indexed I = none := by
  intro fuel
  induction fuel with
  | zero =>
    intro s sp entry used I h
    simpa [buildIndexedEntry] using h
  | succ fuel ih =>
    intro s sp entry used I h
    obtain ⟨im, idx⟩ := entry
    cases idx with
    | enumEntry => simpa [buildIndexedEntry] using h
    | structEntry body => simpa [buildIndexedEntry] using h
    | functionEntry a b => simpa [buildIndexedEntry] using h
    | instanceFunctionEntry => simpa [buildIndexedEntry] using h
    | closureEntry a b => simpa [buildIndexedEntry] using h
    | asyncBlockEntry a b => simpa [buildIndexedEntry] using h
    | moduleEntry => simpa [buildIndexedEntry] using h
    | constEntry md ir =>
      cases hev : evalConst ir 1000000 with
      | none => simpa [buildIndexedEntry, hev] using h
      | some v =>
        cases used <;> simpa [buildIndexedEntry, hev, Used.isUnused] using h
    | constFnEntry loc =>
      cases used <;> simpa [buildIndexedEntry, Used.isUnused] using h
    | importEntry e w =>
      cases w <;> simpa [buildIndexedEntry] using h
    | variantEntry eid body vidx =>
      cases hil : ilookup s.items eid with
      | none => simpa [buildIndexedEntry, hil] using h
      | some em =>
        cases hm : alookup s.meta em.item with
        | some m0 => simpa [buildIndexedEntry, hil, hm] using h
        | none =>
          rcases hrem : removeIndexed s em.item with ⟨r, s'⟩
          have hs' : alookup s'.indexed I = none := by
            have := removeIndexed_indexed_none s em.item I h
            rwa [hrem] at this
          cases r with
          | error e => simpa [buildIndexedEntry, hil, hm, hrem] using hs'
          | ok ro =>
            cases ro with
            | none => simpa [buildIndexedEntry, hil, hm, hrem] using hs'
            | some entry' =>
              rcases hb : buildIndexedEntry fuel s' sp entry' Used.used with ⟨rb, sb⟩
              have hsb : alookup sb.indexed I = none := by
                have := ih s' sp entry' Used.used I hs'
                rwa [hb] at this
              cases rb with
              | error e => simpa [buildIndexedEntry, hil, hm, hrem, hb] using hsb
              | ok mb =>
                rcases hins : insertMeta { sb with unitMetas := sb.unitMetas ++ [mb] } mb
                  with ⟨ri, si⟩
                have hsi : alookup si.indexed I = none := by
                  have h2 : si.indexed = sb.indexed := by
                    have h3 := insertMeta_indexed
                      { sb with unitMetas := sb.unitMetas ++ [mb] } mb
                    rw [hins] at h3
                    simpa using h3
                  rw [h2]
                  exact hsb
                cases ri <;> simpa [buildIndexedEntry, hil, hm, hrem, hb, hins] using hsi

/-- Claim C6: whenever `query_meta` returns `Some` on a state where the meta
cache and the indexed map do not both contain the item, the indexer holds no
entry list for that item afterwards. -/
theorem query_meta_indexed_exclusive (fuel : Nat) (s : QueryState) (sp : Span)
    (I : Item) (used : Used) (m : PrivMeta)
    (hexcl : ¬((alookup s.meta I).isSome ∧ (alookup s.indexed I).isSome))
    (hok : (queryMeta fuel s sp I used).1 = .ok (some m)) :
    alookup ((queryMeta fuel s sp I used).2).indexed I = none := by
  cases hm : alookup s.meta I with
  | some m0 =>
    have hidx : alookup s.indexed I = none := by
      cases hi : alookup s.indexed I with
      | none => rfl
      | some es => exact absurd ⟨by simp [hm], by simp [hi]⟩ hexcl
    simpa [queryMeta, hm] using hidx
  | none =>
    simp only [queryMeta, hm] at hok ⊢
    rcases hrem : removeIndexed s I with ⟨r, s'⟩
    have hs' : alookup s'.indexed I = none := by
      have := removeIndexed_self_none s I
      rwa [hrem] at this
    cases r with
    | error e => simp [queryIndexedMeta, hrem] at hok
    | ok ro =>
      cases ro with
      | none => simp [queryIndexedMeta, hrem] at hok
      | some entry =>
        rcases hb : buildIndexedEntry fuel s' sp entry used with ⟨rb, sb⟩
        have hsb : alookup sb.indexed I = none := by
          have := buildIndexedEntry_indexed_none fuel s' sp entry used I hs'
          rwa [hb] at this
        cases rb with
        | error e => simp [queryIndexedMeta, hrem, hb] at hok
        | ok mb =>
          rcases hins : insertMeta { sb with unitMetas := sb.unitMetas ++ [mb] } mb
            with ⟨ri, si⟩
          have hsi : alookup si.indexed I = none := by
            have h2 : si.indexed = sb.indexed := by
              have h3 := insertMeta_indexed
                { sb with unitMetas := sb.unitMetas ++ [mb] } mb
              rw [hins] at h3
              simpa using h3
            rw [h2]
            exact hsb
          cases ri <;> simpa [queryIndexedMeta, hrem, hb, hins] using hsi

/-- Witness for C6: querying the indexed module entry for `[3]` builds it and
leaves no indexed entry for `[3]` behind. -/
theorem query_meta_indexed_exclusive_witness :
    alookup ((queryMeta 1
      { emptyState with indexed := [([3], [⟨⟨1, dLoc 1, [3], 0, .publicV⟩, .moduleEntry⟩])] }
      0 [3] .used).2).indexed [3] = none :=
  query_meta_indexed_exclusive 1
    { emptyState with indexed := [([3], [⟨⟨1, dLoc 1, [3], 0, .publicV⟩, .moduleEntry⟩])] }
    0 [3] .used ⟨⟨1, dLoc 1, [3], 0, .publicV⟩, .moduleKind, some (dLoc 1)⟩
    (by decide) rfl

/-! ### Claim C10: visibility is checked only on first resolution -/

theorem removeIndexed_accessChecks (s : QueryState) (I : Item) :
    (removeIndexed s I).2.accessChecks = s.accessChecks := by
  cases h : alookup s.indexed I with
  | none => simp [removeIndexed, h]
  | some entries =>
    rcases entries with _ | ⟨a, _ | ⟨b, r⟩⟩ <;> simp [removeIndexed, h]

theorem insertMeta_accessChecks (s : QueryState) (m : PrivMeta) :
    (insertMeta s m).2.accessChecks = s.accessChecks := by
  cases h : alookup s.meta m.itemMeta.item <;> simp [insertMeta, h]

theorem buildIndexedEntry_accessChecks :
    ∀ (fuel : Nat) (s : QueryState) (sp : Span) (entry : IndexedEntry)
      (used : Used),
    (buildIndexedEntry fuel s sp entry used).2.accessChecks = s.accessChecks := by
  intro fuel
  induction fuel with
  | zero => intro s sp entry used; simp [buildIndexedEntry]
  | succ fuel ih =>
    intro s sp entry used
    obtain ⟨im, idx⟩ := entry
    cases idx with
    | enumEntry => simp [buildIndexedEntry]
    | structEntry body => simp [buildIndexedEntry]
    | functionEntry a b => simp [buildIndexedEntry]
    | instanceFunctionEntry => simp [buildIndexedEntry]
    | closureEntry a b => simp [buildIndexedEntry]
    | asyncBlockEntry a b => simp [buildIndexedEntry]
    | moduleEntry => simp [buildIndexedEntry]
    | constEntry md ir =>
      cases hev : evalConst ir 1000000 with
      | none => simp [buildIndexedEntry, hev]
      | some v => cases used <;> simp [buildIndexedEntry, hev, Used.isUnused]
    | constFnEntry loc => cases used <;> simp [buildIndexedEntry, Used.isUnused]
    | importEntry e w => cases w <;> simp [buildIndexedEntry]
    | variantEntry eid body vidx =>
      cases hil : ilookup s.items eid with
      | none => simp [buildIndexedEntry, hil]
      | some em =>
        cases hm : alookup s.meta em.item with
        | some m0 => simp [buildIndexedEntry, hil, hm]
        | none =>
          rcases hrem : removeIndexed s em.item with ⟨r, s'⟩
          have hs' : s'.accessChecks = s.accessChecks := by
            have := removeIndexed_accessChecks s em.item
            rwa [hrem] at this
          cases r with
          | error e => simpa [buildIndexedEntry, hil, hm, hrem] using hs'
          | ok ro =>
            cases ro with
            | none => simpa [buildIndexedEntry, hil, hm, hrem] using hs'
            | some entry' =>
              rcases hb : buildIndexedEntry fuel s' sp entry' Used.used with ⟨rb, sb⟩
              have hsb : sb.accessChecks = s.accessChecks := by
                have := ih s' sp entry' Used.used
                rw [hb] at this
                rw [this, hs']
              cases rb with
              | error e => simpa [buildIndexedEntry, hil, hm, hrem, hb] using hsb
              | ok mb =>
                rcases hins : insertMeta { sb with unitMetas := sb.unitMetas ++ [mb] } mb
                  with ⟨ri, si⟩
                have hsi : si.accessChecks = s.accessChecks := by
                  have h3 := insertMeta_accessChecks
                    { sb with unitMetas := sb.unitMetas ++ [mb] } mb
                  rw [hins] at h3
                  simpa [hsb] using h3
                cases ri <;> simpa [buildIndexedEntry, hil, hm, hrem, hb, hins] using hsi

theorem importIndexed_accessChecks (fuel : Nat) (s : QueryState) (sp : Span)
    (im : ItemMeta) (idx : Indexed) (used : Used) :
    (importIndexed fuel s sp im idx used).2.accessChecks = s.accessChecks := by
  rcases hb : buildIndexedEntry fuel s sp ⟨im, idx⟩ used with ⟨rb, sb⟩
  have hsb : sb.accessChecks = s.accessChecks := by
    have := buildIndexedEntry_accessChecks fuel s sp ⟨im, idx⟩ used
    rwa [hb] at this
  cases rb with
  | error e => simpa [importIndexed, hb] using hsb
  | ok mb =>
    rcases hins : insertMeta { sb with unitMetas := sb.unitMetas ++ [mb] } mb
      with ⟨ri, si⟩
    have hsi : si.accessChecks = s.accessChecks := by
      have h3 := insertMeta_accessChecks { sb with unitMetas := sb.unitMetas ++ [mb] } mb
      rw [hins] at h3
      simpa [hsb] using h3
    cases ri <;> simpa [importIndexed, hb, hins] using hsi

theorem importIndexed_indexed_none (fuel : Nat) (s : QueryState) (sp : Span)
    (im : ItemMeta) (idx : Indexed) (used : Used) (I : Item)
    (h : alookup s.indexed I = none) :
    alookup (importIndexed fuel s sp im idx used).2.indexed I = none := by
  rcases hb : buildIndexedEntry fuel s sp ⟨im, idx⟩ used with ⟨rb, sb⟩
  have hsb : alookup sb.indexed I = none := by
    have := buildIndexedEntry_indexed_none fuel s sp ⟨im, idx⟩ used I h
    rwa [hb] at this
  cases rb with
  | error e => simpa [importIndexed, hb] using hsb
  | ok mb =>
    rcases hins : insertMeta { sb with unitMetas := sb.unitMetas ++ [mb] } mb
      with ⟨ri, si⟩
    have hsi : alookup si.indexed I = none := by
      have h3 : si.indexed = sb.indexed := by
        have h4 := insertMeta_indexed { sb with unitMetas := sb.unitMetas ++ [mb] } mb
        rw [hins] at h4
        simpa using h4
      rw [h3]
      exact hsb
    cases ri <;> simpa [importIndexed, hb, hins] using hsi

/-- A step on an item that is either cached in the meta map or absent from the
indexer performs no visibility check. -/
theorem importStep_no_check_of (fuel : Nat) (pol : AccessPolicy) (s : QueryState)
    (sp : Span) (module : ModId) (I : Item) (used : Used) (path : List ImportStepM)
    (h : (alookup s.meta I).isSome = true ∨ alookup s.indexed I = none) :
    (importStep fuel pol s sp module I used path).2.accessChecks = s.accessChecks := by
  cases hm : alookup s.meta I with
  | some m => cases hk : m.kind <;> simp [importStep, hm, hk]
  | none =>
    have hidx : alookup s.indexed I = none := by
      rcases h with h | h
      · rw [hm] at h; simp at h
      · exact h
    simp [importStep, hm, removeIndexed, hidx]

/-- After a step for `I` returns `Ok`, `I` is either cached in the meta map or
gone from the indexer. -/
theorem importStep_ok_post (fuel : Nat) (pol : AccessPolicy) (s : QueryState)
    (sp : Span) (module : ModId) (I : Item) (used : Used) (path : List ImportStepM)
    (r : Option ImportEntry) (s' : QueryState)
    (h : importStep fuel pol s sp module I used path = (.ok r, s')) :
    (alookup s'.meta I).isSome = true ∨ alookup s'.indexed I = none := by
  cases hm : alookup s.meta I with
  | some m =>
    have hs' : s' = s := by
      cases hk : m.kind <;> simp [importStep, hm, hk] at h <;> exact h.2.symm
    left
    rw [hs', hm]
    rfl
  | none =>
    right
    rcases hrem : removeIndexed s I with ⟨rr, s₂⟩
    have hidx₂ : alookup s₂.indexed I = none := by
      have := removeIndexed_self_none s I
      rwa [hrem] at this
    cases rr with
    | error e => simp [importStep, hm, hrem] at h
    | ok ro =>
      cases ro with
      | none =>
        simp [importStep, hm, hrem] at h
        rw [← h.2]
        exact hidx₂
      | some entry =>
        by_cases hpol : pol module I entry.itemMeta.module entry.itemMeta.visibility
        · cases hidxkind : entry.indexed with
          | importEntry ie w =>
            rcases hins : insertMeta
              { s₂ with accessChecks := s₂.accessChecks ++ [I] }
              ⟨entry.itemMeta, .importKind ie, none⟩ with ⟨ri, si⟩
            have hsi : alookup si.indexed I = none := by
              have h3 : si.indexed = s₂.indexed := by
                have h4 := insertMeta_indexed
                  { s₂ with accessChecks := s₂.accessChecks ++ [I] }
                  ⟨entry.itemMeta, .importKind ie, none⟩
                rw [hins] at h4
                simpa using h4
              rw [h3]
              exact hidx₂
            cases ri with
            | error e => simp [importStep, hm, hrem, checkAccessTo, hpol, hidxkind, hins] at h
            | ok u =>
              simp [importStep, hm, hrem, checkAccessTo, hpol, hidxkind, hins] at h
              rw [← h.2]
              exact hsi
          | enumEntry =>
            rcases hii : importIndexed fuel
              { s₂ with accessChecks := s₂.accessChecks ++ [I] } sp
              entry.itemMeta .enumEntry used with ⟨ri, si⟩
            have hsi : alookup si.indexed I = none := by
              have := importIndexed_indexed_none fuel
                { s₂ with accessChecks := s₂.accessChecks ++ [I] } sp
                entry.itemMeta .enumEntry used I (by simpa using hidx₂)
              rwa [hii] at this
            cases ri with
            | error e => simp [importStep, hm, hrem, checkAccessTo, hpol, hidxkind, hii] at h
            | ok u =>
              simp [importStep, hm, hrem, checkAccessTo, hpol, hidxkind, hii] at h
              rw [← h.2]
              exact hsi
          | structEntry body =>
            rcases hii : importIndexed fuel
              { s₂ with accessChecks := s₂.accessChecks ++ [I] } sp
              entry.itemMeta (.structEntry body) used with ⟨ri, si⟩
            have hsi : alookup si.indexed I = none := by
              have := importIndexed_indexed_none fuel
                { s₂ with accessChecks := s₂.accessChecks ++ [I] } sp
                entry.itemMeta (.structEntry body) used I (by simpa using hidx₂)
              rwa [hii] at this
            cases ri with
            | error e => simp [importStep, hm, hrem, checkAccessTo, hpol, hidxkind, hii] at h
            | ok u =>
              simp [importStep, hm, hrem, checkAccessTo, hpol, hidxkind, hii] at h
              rw [← h.2]
              exact hsi
          | variantEntry a b c =>
            rcases hii : importIndexed fuel
              { s₂ with accessChecks := s₂.accessChecks ++ [I] } sp
              entry.itemMeta (.variantEntry a b c) used with ⟨ri, si⟩
            have hsi : alookup si.indexed I = none := by
              have := importIndexed_indexed_none fuel
                { s₂ with accessChecks := s₂.accessChecks ++ [I] } sp
                entry.itemMeta (.variantEntry a b c) used I (by simpa using hidx₂)
              rwa [hii] at this
            cases ri with
            | error e => simp [importStep, hm, hrem, checkAccessTo, hpol, hidxkind, hii] at h
            | ok u =>
              simp [importStep, hm, hrem, checkAccessTo, hpol, hidxkind, hii] at h
              rw [← h.2]
              exact hsi
          | functionEntry a b =>
            rcases hii : importIndexed fuel
              { s₂ with accessChecks := s₂.accessChecks ++ [I] } sp
              entry.itemMeta (.functionEntry a b) used with ⟨ri, si⟩
            have hsi : alookup si.indexed I = none := by
              have := importIndexed_indexed_none fuel
                { s₂ with accessChecks := s₂.accessChecks ++ [I] } sp
                entry.itemMeta (.functionEntry a b) used I (by simpa using hidx₂)
              rwa [hii] at this
            cases ri with
            | error e => simp [importStep, hm, hrem, checkAccessTo, hpol, hidxkind, hii] at h
            | ok u =>
              simp [importStep, hm, hrem, checkAccessTo, hpol, hidxkind, hii] at h
              rw [← h.2]
              exact hsi
          | instanceFunctionEntry =>
            rcases hii : importIndexed fuel
              { s₂ with accessChecks := s₂.accessChecks ++ [I] } sp
              entry.itemMeta .instanceFunctionEntry used with ⟨ri, si⟩
            have hsi : alookup si.indexed I = none := by
              have := importIndexed_indexed_none fuel
                { s₂ with accessChecks := s₂.accessChecks ++ [I] } sp
                entry.itemMeta .instanceFunctionEntry used I (by simpa using hidx₂)
              rwa [hii] at this
            cases ri with
            | error e => simp [importStep, hm, hrem, checkAccessTo, hpol, hidxkind, hii] at h
            | ok u =>
              simp [importStep, hm, hrem, checkAccessTo, hpol, hidxkind, hii] at h
              rw [← h.2]
              exact hsi
          | closureEntry a b =>
            rcases hii : importIndexed fuel
              { s₂ with accessChecks := s₂.accessChecks ++ [I] } sp
              entry.itemMeta (.closureEntry a b) used with ⟨ri, si⟩
            have hsi : alookup si.indexed I = none := by
              have := importIndexed_indexed_none fuel
                { s₂ with accessChecks := s₂.accessChecks ++ [I] } sp
                entry.itemMeta (.closureEntry a b) used I (by simpa using hidx₂)
              rwa [hii] at this
            cases ri with
            | error e => simp [importStep, hm, hrem, checkAccessTo, hpol, hidxkind, hii] at h
            | ok u =>
              simp [importStep, hm, hrem, checkAccessTo, hpol, hidxkind, hii] at h
              rw [← h.2]
              exact hsi
          | asyncBlockEntry a b =>
            rcases hii : importIndexed fuel
              { s₂ with accessChecks := s₂.accessChecks ++ [I] } sp
              entry.itemMeta (.asyncBlockEntry a b) used with ⟨ri, si⟩
            have hsi : alookup si.indexed I = none := by
              have := importIndexed_indexed_none fuel
                { s₂ with accessChecks := s₂.accessChecks ++ [I] } sp
                entry.itemMeta (.asyncBlockEntry a b) used I (by simpa using hidx₂)
              rwa [hii] at this
            cases ri with
            | error e => simp [importStep, hm, hrem, checkAccessTo, hpol, hidxkind, hii] at h
            | ok u =>
              simp [importStep, hm, hrem, checkAccessTo, hpol, hidxkind, hii] at h
              rw [← h.2]
              exact hsi
          | constEntry a b =>
            rcases hii : importIndexed fuel
              { s₂ with accessChecks := s₂.accessChecks ++ [I] } sp
              entry.itemMeta (.constEntry a b) used with ⟨ri, si⟩
            have hsi : alookup si.indexed I = none := by
              have := importIndexed_indexed_none fuel
                { s₂ with accessChecks := s₂.accessChecks ++ [I] } sp
                entry.itemMeta (.constEntry a b) used I (by simpa using hidx₂)
              rwa [hii] at this
            cases ri with
            | error e => simp [importStep, hm, hrem, checkAccessTo, hpol, hidxkind, hii] at h
            | ok u =>
              simp [importStep, hm, hrem, checkAccessTo, hpol, hidxkind, hii] at h
              rw [← h.2]
              exact hsi
          | constFnEntry a =>
            rcases hii : importIndexed fuel
              { s₂ with accessChecks := s₂.accessChecks ++ [I] } sp
              entry.itemMeta (.constFnEntry a) used with ⟨ri, si⟩
            have hsi : alookup si.indexed I = none := by
              have := importIndexed_indexed_none fuel
                { s₂ with accessChecks := s₂.accessChecks ++ [I] } sp
                entry.itemMeta (.constFnEntry a) used I (by simpa using hidx₂)
              rwa [hii] at this
            cases ri with
            | error e => simp [importStep, hm, hrem, checkAccessTo, hpol, hidxkind, hii] at h
            | ok u =>
              simp [importStep, hm, hrem, checkAccessTo, hpol, hidxkind, hii] at h
              rw [← h.2]
              exact hsi
          | moduleEntry =>
            rcases hii : importIndexed fuel
              { s₂ with accessChecks := s₂.accessChecks ++ [I] } sp
              entry.itemMeta .moduleEntry used with ⟨ri, si⟩
            have hsi : alookup si.indexed I = none := by
              have := importIndexed_indexed_none fuel
                { s₂ with accessChecks := s₂.accessChecks ++ [I] } sp
                entry.itemMeta .moduleEntry used I (by simpa using hidx₂)
              rwa [hii] at this
            cases ri with
            | error e => simp [importStep, hm, hrem, checkAccessTo, hpol, hidxkind, hii] at h
            | ok u =>
              simp [importStep, hm, hrem, checkAccessTo, hpol, hidxkind, hii] at h
              rw [← h.2]
              exact hsi
        · simp [importStep, hm, hrem, checkAccessTo, hpol] at h

/-- Claim C10: `import_step` performs the visibility check only when the
prefix is resolved from a still-indexed entry.  (a) A prefix with cached meta
is followed as an import redirect (or ignored) without touching the state, so
without any visibility check; (b) resolving a prefix from the index performs
exactly one check, on that prefix; (c) after any successful step, a later step
for the same item performs no check: visibility is enforced at most once per
item, on its first resolution. -/
theorem import_step_visibility_once (fuel : Nat) (pol : AccessPolicy)
    (s : QueryState) (sp : Span) (module : ModId) (I : Item) (used : Used)
    (path : List ImportStepM) :
    (∀ m, alookup s.meta I = some m →
      (importStep fuel pol s sp module I used path).2 = s ∧
      ∀ e, m.kind = .importKind e →
        (importStep fuel pol s sp module I used path).1 = .ok (some e))
    ∧ (alookup s.meta I = none →
      ∀ entry, (removeIndexed s I).1 = .ok (some entry) →
      (importStep fuel pol s sp module I used path).2.accessChecks
        = s.accessChecks ++ [I])
    ∧ (∀ r s', importStep fuel pol s sp module I used path = (.ok r, s') →
      ∀ fuel' pol' sp' module' used' path',
        (importStep fuel' pol' s' sp' module' I used' path').2.accessChecks
          = s'.accessChecks) := by
  refine ⟨?_, ?_, ?_⟩
  · intro m hm
    constructor
    · cases hk : m.kind <;> simp [importStep, hm, hk]
    · intro e he
      simp [importStep, hm, he]
  · intro hm entry hrm
    rcases hrem : removeIndexed s I with ⟨rr, s₂⟩
    have hrr : rr = .ok (some entry) := by rw [hrem] at hrm; exact hrm
    subst hrr
    have hacc₂ : s₂.accessChecks = s.accessChecks := by
      have := removeIndexed_accessChecks s I
      rwa [hrem] at this
    by_cases hpol : pol module I entry.itemMeta.module entry.itemMeta.visibility
    · cases hidxkind : entry.indexed with
      | importEntry ie w =>
        rcases hins : insertMeta { s₂ with accessChecks := s₂.accessChecks ++ [I] }
          ⟨entry.itemMeta, .importKind ie, none⟩ with ⟨ri, si⟩
        have hsi : si.accessChecks = s.accessChecks ++ [I] := by
          have h3 := insertMeta_accessChecks
            { s₂ with accessChecks := s₂.accessChecks ++ [I] }
            ⟨entry.itemMeta, .importKind ie, none⟩
          rw [hins] at h3
          simpa [hacc₂] using h3
        cases ri <;>
          simp [importStep, hm, hrem, checkAccessTo, hpol, hidxkind, hins, hsi]
      | enumEntry =>
        rcases hii : importIndexed fuel
          { s₂ with accessChecks := s₂.accessChecks ++ [I] } sp
          entry.itemMeta .enumEntry used with ⟨ri, si⟩
        have hsi : si.accessChecks = s.accessChecks ++ [I] := by
          have h3 := importIndexed_accessChecks fuel
            { s₂ with accessChecks := s₂.accessChecks ++ [I] } sp
            entry.itemMeta .enumEntry used
          rw [hii] at h3
          simpa [hacc₂] using h3
        cases ri <;>
          simp [importStep, hm, hrem, checkAccessTo, hpol, hidxkind, hii, hsi]
      | structEntry body =>
        rcases hii : importIndexed fuel
          { s₂ with accessChecks := s₂.accessChecks ++ [I] } sp
          entry.itemMeta (.structEntry body) used with ⟨ri, si⟩
        have hsi : si.accessChecks = s.accessChecks ++ [I] := by
          have h3 := importIndexed_accessChecks fuel
            { s₂ with accessChecks := s₂.accessChecks ++ [I] } sp
            entry.itemMeta (.structEntry body) used
          rw [hii] at h3
          simpa [hacc₂] using h3
        cases ri <;>
          simp [importStep, hm, hrem, checkAccessTo, hpol, hidxkind, hii, hsi]
      | variantEntry a b c =>
        rcases hii : importIndexed fuel
          { s₂ with accessChecks := s₂.accessChecks ++ [I] } sp
          entry.itemMeta (.variantEntry a b c) used with ⟨ri, si⟩
        have hsi : si.accessChecks = s.accessChecks ++ [I] := by
          have h3 := importIndexed_accessChecks fuel
            { s₂ with accessChecks := s₂.accessChecks ++ [I] } sp
            entry.itemMeta (.variantEntry a b c) used
          rw [hii] at h3
          simpa [hacc₂] using h3
        cases ri <;>
          simp [importStep, hm, hrem, checkAccessTo, hpol, hidxkind, hii, hsi]
      | functionEntry a b =>
        rcases hii : importIndexed fuel
          { s₂ with accessChecks := s₂.accessChecks ++ [I] } sp
          entry.itemMeta (.functionEntry a b) used with ⟨ri, si⟩
        have hsi : si.accessChecks = s.accessChecks ++ [I] := by
          have h3 := importIndexed_accessChecks fuel
            { s₂ with accessChecks := s₂.accessChecks ++ [I] } sp
            entry.itemMeta (.functionEntry a b) used
          rw [hii] at h3
          simpa [hacc₂] using h3
        cases ri <;>
          simp [importStep, hm, hrem, checkAccessTo, hpol, hidxkind, hii, hsi]
      | instanceFunctionEntry =>
        rcases hii : importIndexed fuel
          { s₂ with accessChecks := s₂.accessChecks ++ [I] } sp
          entry.itemMeta .instanceFunctionEntry used with ⟨ri, si⟩
        have hsi : si.accessChecks = s.accessChecks ++ [I] := by
          have h3 := importIndexed_accessChecks fuel
            { s₂ with accessChecks := s₂.accessChecks ++ [I] } sp
            entry.itemMeta .instanceFunctionEntry used
          rw [hii] at h3
          simpa [hacc₂] using h3
        cases ri <;>
          simp [importStep, hm, hrem, checkAccessTo, hpol, hidxkind, hii, hsi]
      | closureEntry a b =>
        rcases hii : importIndexed fuel
          { s₂ with accessChecks := s₂.accessChecks ++ [I] } sp
          entry.itemMeta (.closureEntry a b) used with ⟨ri, si⟩
        have hsi : si.accessChecks = s.accessChecks ++ [I] := by
          have h3 := importIndexed_accessChecks fuel
            { s₂ with accessChecks := s₂.accessChecks ++ [I] } sp
            entry.itemMeta (.closureEntry a b) used
          rw [hii] at h3
          simpa [hacc₂] using h3
        cases ri <;>
          simp [importStep, hm, hrem, checkAccessTo, hpol, hidxkind, hii, hsi]
      | asyncBlockEntry a b =>
        rcases hii : importIndexed fuel
          { s₂ with accessChecks := s₂.accessChecks ++ [I] } sp
          entry.itemMeta (.asyncBlockEntry a b) used with ⟨ri, si⟩
        have hsi : si.accessChecks = s.accessChecks ++ [I] := by
          have h3 := importIndexed_accessChecks fuel
            { s₂ with accessChecks := s₂.accessChecks ++ [I] } sp
            entry.itemMeta (.asyncBlockEntry a b) used
          rw [hii] at h3
          simpa [hacc₂] using h3
        cases ri <;>
          simp [importStep, hm, hrem, checkAccessTo, hpol, hidxkind, hii, hsi]
      | constEntry a b =>
        rcases hii : importIndexed fuel
          { s₂ with accessChecks := s₂.accessChecks ++ [I] } sp
          entry.itemMeta (.constEntry a b) used with ⟨ri, si⟩
        have hsi : si.accessChecks = s.accessChecks ++ [I] := by
          have h3 := importIndexed_accessChecks fuel
            { s₂ with accessChecks := s₂.accessChecks ++ [I] } sp
            entry.itemMeta (.constEntry a b) used
          rw [hii] at h3
          simpa [hacc₂] using h3
        cases ri <;>
          simp [importStep, hm, hrem, checkAccessTo, hpol, hidxkind, hii, hsi]
      | constFnEntry a =>
        rcases hii : importIndexed fuel
          { s₂ with accessChecks := s₂.accessChecks ++ [I] } sp
          entry.itemMeta (.constFnEntry a) used with ⟨ri, si⟩
        have hsi : si.accessChecks = s.accessChecks ++ [I] := by
          have h3 := importIndexed_accessChecks fuel
            { s₂ with accessChecks := s₂.accessChecks ++ [I] } sp
            entry.itemMeta (.constFnEntry a) used
          rw [hii] at h3
          simpa [hacc₂] using h3
        cases ri <;>
          simp [importStep, hm, hrem, checkAccessTo, hpol, hidxkind, hii, hsi]
      | moduleEntry =>
        rcases hii : importIndexed fuel
          { s₂ with accessChecks := s₂.accessChecks ++ [I] } sp
          entry.itemMeta .moduleEntry used with ⟨ri, si⟩
        have hsi : si.accessChecks = s.accessChecks ++ [I] := by
          have h3 := importIndexed_accessChecks fuel
            { s₂ with accessChecks := s₂.accessChecks ++ [I] } sp
            entry.itemMeta .moduleEntry used
          rw [hii] at h3
          simpa [hacc₂] using h3
        cases ri <;>
          simp [importStep, hm, hrem, checkAccessTo, hpol, hidxkind, hii, hsi]
    · simp [importStep, hm, hrem, checkAccessTo, hpol, hacc₂]
  · intro r s' hstep fuel' pol' sp' module' used' path'
    exact importStep_no_check_of fuel' pol' s' sp' module' I used' path'
      (importStep_ok_post fuel pol s sp module I used path r s' hstep)

/-- Witness for C10: resolving the indexed import for `[4]` performs exactly
one visibility check, on `[4]`. -/
theorem import_step_visibility_once_witness :
    (importStep 1 allowAll stepFixture 0 0 [4] .used []).2.accessChecks
      = stepFixture.accessChecks ++ [[4]] :=
  (import_step_visibility_once 1 allowAll stepFixture 0 0 [4] .used []).2.1
    rfl ⟨⟨2, dLoc 2, [4], 0, .publicV⟩, .importEntry ⟨dLoc 2, [8], 0⟩ false⟩ rfl

/-! ### Claims C2 and C3: import chains, the recursion limit and cycles -/

theorem alistErase_cons_drop {α : Type} (k : Item) (v : α) (l : List (Item × α)) :
    alistErase ((k, v) :: l) k = alistErase l k := by
  simp [alistErase]

theorem alookup_redirectIdx_head (t : Nat → Item) (j m : Nat) :
    alookup (redirectIdx t j (m + 1)) [j] = some [redirectEntry j (t j)] := by
  simp [redirectIdx, alookup]

theorem alookup_redirectIdx_lt (t : Nat → Item) :
    ∀ (m j i : Nat), i < j → alookup (redirectIdx t j m) [i] = none := by
  intro m
  induction m with
  | zero => intro j i _; simp [redirectIdx, alookup]
  | succ m ih =>
    intro j i h
    simp only [redirectIdx, alookup]
    rw [if_neg (by simp; exact (Nat.ne_of_lt h).symm)]
    exact ih (j + 1) i (by omega)

theorem alookup_redirectIdx_ge (t : Nat → Item) :
    ∀ (m j i : Nat), j + m ≤ i → alookup (redirectIdx t j m) [i] = none := by
  intro m
  induction m with
  | zero => intro j i _; simp [redirectIdx, alookup]
  | succ m ih =>
    intro j i h
    simp only [redirectIdx, alookup]
    rw [if_neg (by simp; exact Nat.ne_of_lt (by omega))]
    exact ih (j + 1) i (by omega)

theorem alistErase_redirectIdx_lt (t : Nat → Item) :
    ∀ (m j i : Nat), i < j → alistErase (redirectIdx t j m) [i] = redirectIdx t j m := by
  intro m
  induction m with
  | zero => intro j i _; simp [redirectIdx, alistErase]
  | succ m ih =>
    intro j i h
    show alistErase (([j], [redirectEntry j (t j)]) :: redirectIdx t (j + 1) m) [i]
      = ([j], [redirectEntry j (t j)]) :: redirectIdx t (j + 1) m
    rw [show alistErase (([j], [redirectEntry j (t j)]) :: redirectIdx t (j + 1) m) [i]
        = if ([j] : Item) ≠ [i] then
            ([j], [redirectEntry j (t j)]) :: alistErase (redirectIdx t (j + 1) m) [i]
          else alistErase (redirectIdx t (j + 1) m) [i] from by
      simp [alistErase, List.filter_cons]]
    rw [if_pos (by simp; exact (Nat.ne_of_lt h).symm), ih (j + 1) i (by omega)]

theorem alistErase_redirectIdx_head (t : Nat → Item) (j m : Nat) :
    alistErase (redirectIdx t j (m + 1)) [j] = redirectIdx t (j + 1) m := by
  rw [show redirectIdx t j (m + 1)
      = ([j], [redirectEntry j (t j)]) :: redirectIdx t (j + 1) m from rfl,
    alistErase_cons_drop]
  exact alistErase_redirectIdx_lt t m (j + 1) j (by omega)

theorem redirectMetaList_succ (t : Nat → Item) (j : Nat) :
    redirectMetaList t (j + 1)
      = redirectMetaList t j ++ [([j], redirectMeta j (t j))] := by
  simp [redirectMetaList, List.range_succ]

theorem alookup_redirectMetaList_ge (t : Nat → Item) :
    ∀ (j i : Nat), j ≤ i → alookup (redirectMetaList t j) [i] = none := by
  intro j
  induction j with
  | zero => intro i _; simp [redirectMetaList, alookup]
  | succ j ih =>
    intro i h
    rw [redirectMetaList_succ, alookup_append_of_none (ih i (by omega))]
    simp only [alookup]
    rw [if_neg (by simp; exact Nat.ne_of_lt (by omega))]

theorem alookup_redirectMetaList_lt (t : Nat → Item) :
    ∀ (j i : Nat), i < j →
      alookup (redirectMetaList t j) [i] = some (redirectMeta i (t i)) := by
  intro j
  induction j with
  | zero => intro i h; omega
  | succ j ih =>
    intro i h
    by_cases hij : i < j
    · rw [redirectMetaList_succ]
      exact alookup_append_of_some (ih i hij) _
    · have hii : i = j := by omega
      subst hii
      rw [redirectMetaList_succ,
        alookup_append_of_none (alookup_redirectMetaList_ge t i i (Nat.le_refl i))]
      simp [alookup]

theorem visitedL_succ (j : Nat) : visitedL (j + 1) = visitedL j ++ [[j]] := by
  simp [visitedL, List.range_succ]

theorem pathL_succ (t : Nat → Item) (j : Nat) :
    pathL t (j + 1) = pathL t j ++ [⟨dLoc j, t j⟩] := by
  simp [pathL, List.range_succ]

theorem mem_visitedL (i j : Nat) : (([i] : Item) ∈ visitedL j) ↔ i < j := by
  simp [visitedL]

theorem pathL_length (t : Nat → Item) (j : Nat) : (pathL t j).length = j := by
  simp [pathL]

/-- One `import_step` on the still-indexed item `[j]` of an import scenario:
the entry is removed, checked, installed as meta, and returned as a redirect,
moving the state from `midState t n j` to `midState t n (j+1)`. -/
theorem importStep_mid (t : Nat → Item) (n j fuel : Nat) (path : List ImportStepM)
    (hjn : j < n) :
    importStep fuel allowAll (midState t n j) 0 0 [j] .used path
      = (.ok (some ⟨dLoc j, t j, 0⟩), midState t n (j + 1)) := by
  have h1 : n - j = (n - j - 1) + 1 := by omega
  have hmeta : alookup (redirectMetaList t j) [j] = none :=
    alookup_redirectMetaList_ge t j j (Nat.le_refl j)
  have hidx : alookup (redirectIdx t j (n - j)) [j] = some [redirectEntry j (t j)] := by
    rw [h1]
    exact alookup_redirectIdx_head t j (n - j - 1)
  have herase : alistErase (redirectIdx t j (n - j)) [j]
      = redirectIdx t (j + 1) (n - j - 1) := by
    rw [h1]
    exact alistErase_redirectIdx_head t j (n - j - 1)
  simp only [importStep, midState, emptyState, removeIndexed, hmeta, hidx, herase,
    checkAccessTo, allowAll, insertMeta, redirectEntry, redirectMeta, if_true,
    redirectMetaList_succ, visitedL_succ, pathL_succ, List.range_succ,
    List.map_append, List.map_cons, List.map_nil, Nat.sub_sub]

/-- The inner walk at a still-indexed single-component item `[j]`. -/
theorem walk_mid (t : Nat → Item) (n j fuel : Nat) (path : List ImportStepM)
    (hjn : j < n) :
    walkComponents fuel allowAll 0 (midState t n j) 0 .used path [] [j]
      = (.ok (some (⟨dLoc j, t j, 0⟩, [])), midState t n (j + 1)) := by
  simp only [walkComponents, List.nil_append, importStep_mid t n j fuel path hjn]

/-- The inner walk at the unresolved end of a chain: no prefix matches. -/
theorem walk_break (t : Nat → Item) (n fuel : Nat) (path : List ImportStepM) :
    walkComponents fuel allowAll 0 (midState t n n) 0 .used path [] [n]
      = (.ok none, midState t n n) := by
  have hmeta : alookup (redirectMetaList t n) [n] = none :=
    alookup_redirectMetaList_ge t n n (Nat.le_refl n)
  have hidx : alookup (redirectIdx t n (n - n)) [n] = none := by
    rw [Nat.sub_self]
    rfl
  simp only [walkComponents, List.nil_append, importStep, midState, emptyState,
    removeIndexed, hmeta, hidx]

/-- A step on the head of a cycle after every entry moved to the meta cache:
the cached import meta is followed with no state change. -/
theorem importStep_meta_cyc (k fuel : Nat) (path : List ImportStepM) (hk : 0 < k) :
    importStep fuel allowAll (midState (cycT k) k k) 0 0 [0] .used path
      = (.ok (some ⟨dLoc 0, cycT k 0, 0⟩), midState (cycT k) k k) := by
  have hmeta : alookup (redirectMetaList (cycT k) k) [0]
      = some (redirectMeta 0 (cycT k 0)) :=
    alookup_redirectMetaList_lt (cycT k) k 0 hk
  simp only [importStep, midState, emptyState, hmeta, redirectMeta]

/-- One iteration of the outer import loop taking the redirect at `[j]`. -/
theorem importLoop_step (t : Nat → Item) (n j fuel lf : Nat) (am : Bool)
    (hjn : j < n) (hj : j ≤ 128) :
    importLoop fuel allowAll 0 (lf + 1) (midState t n j) 0 [j] (visitedL j)
      (pathL t j) j am .used
      = importLoop fuel allowAll 0 lf (midState t n (j + 1)) 0 (t j)
        (visitedL (j + 1)) (pathL t (j + 1)) (j + 1) true .used := by
  have hcnt : ¬(j > IMPORT_RECURSION_LIMIT) := by
    simp only [IMPORT_RECURSION_LIMIT]
    omega
  have hnv : ¬(([j] : Item) ∈ visitedL j) := by
    rw [mem_visitedL]
    omega
  simp only [importLoop]
  rw [if_neg hcnt]
  simp only [walk_mid t n j fuel (pathL t j) hjn]
  rw [if_neg hnv]
  simp only [List.append_nil, visitedL_succ, pathL_succ]

/-- The final iteration of a resolved chain: no prefix matches, the loop
breaks and returns the rewritten item when any redirect fired. -/
theorem importLoop_break (t : Nat → Item) (n lf fuel : Nat) (vis : List Item)
    (path : List ImportStepM) (am : Bool) (hn : n ≤ 128) :
    importLoop fuel allowAll 0 (lf + 1) (midState t n n) 0 [n] vis path n am .used
      = (.ok (if am then some [n] else none), midState t n n) := by
  have hcnt : ¬(n > IMPORT_RECURSION_LIMIT) := by
    simp only [IMPORT_RECURSION_LIMIT]
    omega
  simp only [importLoop]
  rw [if_neg hcnt]
  simp only [walk_break t n fuel path]

/-- The recursion-limit guard fires as soon as the hop count exceeds 128. -/
theorem importLoop_limit (fuel lf : Nat) (s : QueryState) (module : ModId)
    (item : Item) (vis : List Item) (path : List ImportStepM) (count : Nat)
    (am : Bool) (h : 128 < count) :
    importLoop fuel allowAll 0 (lf + 1) s module item vis path count am .used
      = (.error (.importRecursionLimit count path), s) := by
  simp only [importLoop]
  rw [if_pos (by simp only [IMPORT_RECURSION_LIMIT]; omega)]

/-- The detecting iteration of a cycle: the head item is redirected again via
its cached meta; it is already in the visited set, so `ImportCycle` fires with
the final redirect's step appended to the path. -/
theorem importLoop_cycle_final (k fuel lf : Nat) (am : Bool) (hk : 0 < k)
    (hkc : k ≤ 128) :
    importLoop fuel allowAll 0 (lf + 1) (midState (cycT k) k k) 0 [0]
      (visitedL k) (pathL (cycT k) k) k am .used
      = (.error (.importCycle (pathL (cycT k) k ++ [⟨dLoc 0, cycT k 0⟩])),
         midState (cycT k) k k) := by
  have hcnt : ¬(k > IMPORT_RECURSION_LIMIT) := by
    simp only [IMPORT_RECURSION_LIMIT]
    omega
  have hmem : ([0] : Item) ∈ visitedL k := (mem_visitedL 0 k).2 hk
  have hwalk : walkComponents fuel allowAll 0 (midState (cycT k) k k) 0 .used
      (pathL (cycT k) k) [] [0]
      = (.ok (some (⟨dLoc 0, cycT k 0, 0⟩, [])), midState (cycT k) k k) := by
    simp only [walkComponents, List.nil_append,
      importStep_meta_cyc k fuel (pathL (cycT k) k) hk]
  simp only [importLoop]
  rw [if_neg hcnt]
  simp only [hwalk]
  rw [if_pos hmem]

/-- Running a straight chain from position `j` to its resolved end. -/
theorem chainRun : ∀ (d j n lf : Nat) (am : Bool), j + d = n → n ≤ 128 → d < lf →
    importLoop 1 allowAll 0 lf (midState chainT n j) 0 [j] (visitedL j)
      (pathL chainT j) j am .used
      = (.ok (if am ∨ 0 < d then some [n] else none), midState chainT n n) := by
  intro d
  induction d with
  | zero =>
    intro j n lf am hj hn hlf
    obtain rfl : j = n := by omega
    obtain ⟨lf', rfl⟩ : ∃ lf', lf = lf' + 1 := ⟨lf - 1, by omega⟩
    rw [importLoop_break chainT j lf' 1 (visitedL j) (pathL chainT j) am hn]
    simp
  | succ d ih =>
    intro j n lf am hj hn hlf
    obtain ⟨lf', rfl⟩ : ∃ lf', lf = lf' + 1 := ⟨lf - 1, by omega⟩
    rw [importLoop_step chainT n j 1 lf' am (by omega) (by omega)]
    rw [show chainT j = [j + 1] from rfl]
    rw [ih (j + 1) n lf' true (by omega) hn (by omega)]
    simp

/-- Running a straight chain long enough to trip the recursion limit. -/
theorem chainLimitRun : ∀ (d j n lf : Nat) (am : Bool), j + d = 129 → 129 ≤ n →
    d < lf →
    importLoop 1 allowAll 0 lf (midState chainT n j) 0 [j] (visitedL j)
      (pathL chainT j) j am .used
      = (.error (.importRecursionLimit 129 (pathL chainT 129)),
         midState chainT n 129) := by
  intro d
  induction d with
  | zero =>
    intro j n lf am hj hn hlf
    obtain rfl : j = 129 := by omega
    obtain ⟨lf', rfl⟩ : ∃ lf', lf = lf' + 1 := ⟨lf - 1, by omega⟩
    exact importLoop_limit 1 lf' (midState chainT n 129) 0 [129] (visitedL 129)
      (pathL chainT 129) 129 am (by omega)
  | succ d ih =>
    intro j n lf am hj hn hlf
    obtain ⟨lf', rfl⟩ : ∃ lf', lf = lf' + 1 := ⟨lf - 1, by omega⟩
    rw [importLoop_step chainT n j 1 lf' am (by omega) (by omega)]
    rw [show chainT j = [j + 1] from rfl]
    exact ih (j + 1) n lf' true (by omega) hn (by omega)

/-- Running a cycle of length `k` from position `j` to the cycle error. -/
theorem cycRun : ∀ (d j k lf : Nat) (am : Bool), j + d = k → 0 < k → k ≤ 128 →
    d < lf →
    importLoop 1 allowAll 0 lf (midState (cycT k) k j) 0
      (if j < k then [j] else [0]) (visitedL j) (pathL (cycT k) j) j am .used
      = (.error (.importCycle (pathL (cycT k) k ++ [⟨dLoc 0, cycT k 0⟩])),
         midState (cycT k) k k) := by
  intro d
  induction d with
  | zero =>
    intro j k lf am hj hk hkc hlf
    obtain rfl : j = k := by omega
    rw [if_neg (lt_irrefl j)]
    obtain ⟨lf', rfl⟩ : ∃ lf', lf = lf' + 1 := ⟨lf - 1, by omega⟩
    exact importLoop_cycle_final j 1 lf' am hk hkc
  | succ d ih =>
    intro j k lf am hj hk hkc hlf
    have hjk : j < k := by omega
    rw [if_pos hjk]
    obtain ⟨lf', rfl⟩ : ∃ lf', lf = lf' + 1 := ⟨lf - 1, by omega⟩
    rw [importLoop_step (cycT k) k j 1 lf' am hjk (by omega)]
    have hitem : cycT k j = (if j + 1 < k then [j + 1] else [0]) := by
      by_cases h2 : j + 1 < k
      · rw [if_pos h2]
        simp [cycT, Nat.mod_eq_of_lt h2]
      · rw [if_neg h2]
        have h3 : j + 1 = k := by omega
        simp [cycT, h3, Nat.mod_self]
    rw [hitem]
    exact ih (j + 1) k lf' true (by omega) hk hkc (by omega)

/-- Claim C2: over a straight (non-cyclic) import chain of `n` hops, `import`
resolves to the chain's end without error whenever `n ≤ 128`, and fails with
`ImportRecursionLimit` whenever `n > 128` (the guard fires at hop count 129
with the 129 steps taken so far). -/
theorem import_chain_recursion_limit (n : Nat) :
    (0 < n → n ≤ 128 →
      (importFn 1 allowAll (chainState n) 0 0 [0] .used).1 = .ok (some [n]))
    ∧ (128 < n →
      (importFn 1 allowAll (chainState n) 0 0 [0] .used).1
        = .error (.importRecursionLimit 129 (pathL chainT 129))) := by
  constructor
  · intro h0 hn
    have h := chainRun n 0 n 131 false (by omega) hn (by omega)
    show (importLoop 1 allowAll 0 131 (midState chainT n 0) 0 [0] (visitedL 0)
      (pathL chainT 0) 0 false .used).1 = _
    rw [h]
    simp [h0]
  · intro hn
    have h := chainLimitRun 129 0 n 131 false (by omega) hn (by omega)
    show (importLoop 1 allowAll 0 131 (midState chainT n 0) 0 [0] (visitedL 0)
      (pathL chainT 0) 0 false .used).1 = _
    rw [h]

/-- Witness for C2: a 128-hop chain resolves to `[128]`; a 129-hop chain hits
the recursion limit. -/
theorem import_chain_recursion_limit_witness :
    (importFn 1 allowAll (chainState 128) 0 0 [0] .used).1 = .ok (some [128]) ∧
    (importFn 1 allowAll (chainState 129) 0 0 [0] .used).1
      = .error (.importRecursionLimit 129 (pathL chainT 129)) :=
  ⟨(import_chain_recursion_limit 128).1 (by omega) (by omega),
   (import_chain_recursion_limit 129).2 (by omega)⟩

/-- Claim C3: an import cycle of length `k ≤ 128` fails with `ImportCycle`,
whose path chain records one `ImportStep` (location and target item) for each
of the `k + 1` redirects the resolver followed before the cycle was detected:
the `k` redirects around the cycle and the final redirect of the head item at
which detection fired. -/
theorem import_cycle_detection (k : Nat) (hk : 0 < k) (hkc : k ≤ 128) :
    (importFn 1 allowAll (cycState k) 0 0 [0] .used).1
      = .error (.importCycle (pathL (cycT k) k ++ [ImportStepM.mk (dLoc 0) (cycT k 0)]))
    ∧ (pathL (cycT k) k ++ [ImportStepM.mk (dLoc 0) (cycT k 0)]).length = k + 1 := by
  constructor
  · have h := cycRun k 0 k 131 false (by omega) hk hkc (by omega)
    rw [if_pos hk] at h
    show (importLoop 1 allowAll 0 131 (midState (cycT k) k 0) 0 [0] (visitedL 0)
      (pathL (cycT k) 0) 0 false .used).1 = _
    rw [h]
  · simp [pathL_length]

/-- Witness for C3: the two-module cycle (scenario S3) errors with a chain of
three steps. -/
theorem import_cycle_detection_witness :
    (importFn 1 allowAll (cycState 2) 0 0 [0] .used).1
      = .error (.importCycle (pathL (cycT 2) 2 ++ [ImportStepM.mk (dLoc 0) (cycT 2 0)]))
    ∧ (pathL (cycT 2) 2 ++ [ImportStepM.mk (dLoc 0) (cycT 2 0)]).length = 2 + 1 :=
  import_cycle_detection 2 (by omega) (by omega)

/-! ### Claims C4 and C8: the field-access emitter -/

/-- Counterexample to C4 as stated: in the immediate-local-tuple-index fast
path with the value unused, the emitter does append `Pop` and record the
warning, but returns an *unnamed* stack value, not an empty value as the
claim requires. -/
theorem field_access_unused_fast_path_counterexample :
    assembleFieldAccess fieldFixtureCompiler
      ⟨.path (some "t") [] .top, .litNumber (.integer 1), 5⟩ false
      = .ok (.unnamed 5,
        { fieldFixtureCompiler with
            asm := [(.tupleIndexGet (.offset 0) 1, 5), (.pop, 5)],
            warnings := [(0, 5)] })
    ∧ CValue.unnamed 5 ≠ CValue.empty 5 := by
  constructor
  · rfl
  · decide

/-- Claim C4 (amended): with the value unused, both paths append `Pop` after
the `TupleIndexGet`/`ObjectIndexGet` and record a `not_used` warning at the
expression's span, but only the general path returns an empty value — the
immediate-local fast path returns an unnamed stack value; with the value
needed, both paths return an unnamed stack value anchored at the current span
and emit no `Pop` and no warning. -/
theorem field_access_needs_behavior (c : Compiler) (sp : Span) :
    (∀ (id : String) (off : Nat) (i : Int) (idx : Nat)
       (insts : List (Inst × Span)) (addr : InstAddress),
      tryGetVar c id = some off →
      usizeOfInt i = some idx →
      assembleFieldAccess c
        ⟨.path (some id) insts addr, .litNumber (.integer i), sp⟩ false
        = .ok (.unnamed sp,
          { c with
              asm := c.asm ++ [(.tupleIndexGet (.offset off) idx, sp), (.pop, sp)],
              warnings := c.warnings ++ [(c.sourceId, sp)] }))
    ∧ (∀ (id : String) (off : Nat) (i : Int) (idx : Nat)
         (insts : List (Inst × Span)) (addr : InstAddress),
      tryGetVar c id = some off →
      usizeOfInt i = some idx →
      assembleFieldAccess c
        ⟨.path (some id) insts addr, .litNumber (.integer i), sp⟩ true
        = .ok (.unnamed sp,
          { c with asm := c.asm ++ [(.tupleIndexGet (.offset off) idx, sp)] }))
    ∧ (∀ (insts : List (Inst × Span)) (addr : InstAddress) (i : Int) (idx : Nat),
      usizeOfInt i = some idx →
      assembleFieldAccess c ⟨.other insts addr, .litNumber (.integer i), sp⟩ false
        = .ok (.empty sp,
          { c with
              asm := c.asm ++ insts ++ [(.tupleIndexGet addr idx, sp), (.pop, sp)],
              warnings := c.warnings ++ [(c.sourceId, sp)] }))
    ∧ (∀ (insts : List (Inst × Span)) (addr : InstAddress) (i : Int) (idx : Nat),
      usizeOfInt i = some idx →
      assembleFieldAccess c ⟨.other insts addr, .litNumber (.integer i), sp⟩ true
        = .ok (.unnamed sp,
          { c with asm := c.asm ++ insts ++ [(.tupleIndexGet addr idx, sp)] }))
    ∧ (∀ (insts : List (Inst × Span)) (addr : InstAddress) (name : String)
         (slot : Nat),
      c.staticStrings.indexOf? name = some slot →
      assembleFieldAccess c ⟨.other insts addr, .ident name, sp⟩ false
        = .ok (.empty sp,
          { c with
              asm := c.asm ++ insts ++ [(.objectIndexGet addr slot, sp), (.pop, sp)],
              warnings := c.warnings ++ [(c.sourceId, sp)] }))
    ∧ (∀ (insts : List (Inst × Span)) (addr : InstAddress) (name : String)
         (slot : Nat),
      c.staticStrings.indexOf? name = some slot →
      assembleFieldAccess c ⟨.other insts addr, .ident name, sp⟩ true
        = .ok (.unnamed sp,
          { c with asm := c.asm ++ insts ++ [(.objectIndexGet addr slot, sp)] })) := by
  refine ⟨?_, ?_, ?_, ?_, ?_, ?_⟩
  · intro id off i idx insts addr hvar husize
    simp [assembleFieldAccess, tryImmediateFieldAccessOptimization, hvar, husize]
  · intro id off i idx insts addr hvar husize
    simp [assembleFieldAccess, tryImmediateFieldAccessOptimization, hvar, husize]
  · intro insts addr i idx husize
    simp [assembleFieldAccess, assembleFieldAccessSlow, assembleSubExpr,
      asTupleIndex, husize]
  · intro insts addr i idx husize
    simp [assembleFieldAccess, assembleFieldAccessSlow, assembleSubExpr,
      asTupleIndex, husize]
  · intro insts addr name slot hslot
    simp [assembleFieldAccess, assembleFieldAccessSlow, assembleSubExpr,
      newStaticString, hslot]
  · intro insts addr name slot hslot
    simp [assembleFieldAccess, assembleFieldAccessSlow, assembleSubExpr,
      newStaticString, hslot]

/-- Witness for the amended C4: unused `t.1` on the local `t` emits
`TupleIndexGet` then `Pop`, records the warning, and returns an unnamed
value. -/
theorem field_access_needs_behavior_witness :
    assembleFieldAccess fieldFixtureCompiler
      ⟨.path (some "t") [] .top, .litNumber (.integer 1), 5⟩ false
      = .ok (.unnamed 5,
        { fieldFixtureCompiler with
            asm := fieldFixtureCompiler.asm
              ++ [(.tupleIndexGet (.offset 0) 1, 5), (.pop, 5)],
            warnings := fieldFixtureCompiler.warnings
              ++ [(fieldFixtureCompiler.sourceId, 5)] }) :=
  (field_access_needs_behavior fieldFixtureCompiler 5).1 "t" 0 1 1 [] .top
    rfl (by decide)

/-- Claim C8: a field access whose field is a numeric literal that cannot be
resolved as a machine-sized tuple index fails with `BadFieldAccess`, and the
immediate-local fast path declines such literals without emitting any
instruction (the compiler state is returned unchanged). -/
theorem bad_field_access_overflow (c : Compiler) (expr : FAExpr) (i : Int)
    (sp : Span) (needsValue : Bool)
    (hover : ¬(0 ≤ i ∧ i < 2 ^ 64)) :
    assembleFieldAccess c ⟨expr, .litNumber (.integer i), sp⟩ needsValue
      = .error .badFieldAccess
    ∧ ∀ tai, tryImmediateFieldAccessOptimization c sp tai (.integer i) needsValue
        = (none, c) := by
  have husize : usizeOfInt i = none := by
    rw [usizeOfInt, if_neg hover]
  constructor
  · cases expr with
    | path tai insts addr =>
      cases tai with
      | none =>
        simp [assembleFieldAccess, tryImmediateFieldAccessOptimization,
          assembleFieldAccessSlow, assembleSubExpr, asTupleIndex, husize]
      | some id =>
        simp [assembleFieldAccess, tryImmediateFieldAccessOptimization,
          assembleFieldAccessSlow, assembleSubExpr, asTupleIndex, husize]
    | other insts addr =>
      simp [assembleFieldAccess, assembleFieldAccessSlow, assembleSubExpr,
        asTupleIndex, husize]
  · intro tai
    cases tai with
    | none => simp [tryImmediateFieldAccessOptimization]
    | some id => simp [tryImmediateFieldAccessOptimization, husize]

/-- Witness for C8: `t.18446744073709551616` (the literal is `2^64`) fails
with `BadFieldAccess` even though `t` is a local in scope. -/
theorem bad_field_access_overflow_witness :
    assembleFieldAccess fieldFixtureCompiler
      ⟨.path (some "t") [] .top, .litNumber (.integer 18446744073709551616), 5⟩
      true
      = .error .badFieldAccess :=
  (bad_field_access_overflow fieldFixtureCompiler (.path (some "t") [] .top)
    18446744073709551616 5 true (by decide)).1

end Rune
